import Mathlib

/-! PocketMage system core: text buffer, metadata index, clock setting, battery state

A shallow embedding of `Code/PocketMage_V3/lib/PocketMage/src/pocketmage_sys.cpp`.

Conventions of the embedding.

* An Arduino `String` is a `List Char`; `startsWith`, `endsWith`, `indexOf`,
  `lastIndexOf`, `substring`, `toInt` follow the Arduino core.
* `display.getTextBounds` is a parameter `width : List Char → Nat` (the `uint16_t`
  it writes), `display.width()` is a parameter `dispW : Int` (an `int16_t`);
  the comparisons are carried out in `Int`, as the C++ integer promotions do.
* A file on the card is the `List Char` of its bytes; an absent file is `none`.
  `readStringUntil` and `println` follow the Arduino `Stream` and `Print` classes.
* A `float` or `double` is the rational number it denotes; decimal literals are rounded
  to their format, and the differences the code takes of them are shown to be exact.
-/

namespace PocketMage

/-! ## Arduino `String` helpers -/

/-- Arduino `String::endsWith(" ")`: the string is non-empty and its last character is a space. -/
def endsWithSpace (s : List Char) : Bool :=
  match s.getLast? with
  | some c => c == ' '
  | none => false

/-- Arduino `String::lastIndexOf(ch)`: the position of the last `ch`, `none` for `-1`. -/
def lastIndexOf (ch : Char) : List Char → Option Nat
  | [] => none
  | c :: cs =>
    match lastIndexOf ch cs with
    | some i => some (i + 1)
    | none => if c = ch then some 0 else none

/-- Arduino `String::substring(left, right)`: characters `left .. right-1`
(the bounds are swapped when `left > right`, and clipped to the length). -/
def substring (s : List Char) (left right : Nat) : List Char :=
  let l := min left right
  let r := max left right
  (s.take r).drop l

/-- Arduino `String::substring(left)`: characters from `left` to the end. -/
def substringFrom (s : List Char) (left : Nat) : List Char :=
  substring s left s.length

/-! ## Text buffer: `vectorToString` and `stringToVector` -/

/-- The loop of `vectorToString`: each line is appended to the result, followed by
a line break when `charWidth < display.width()` and the line is not the last. -/
def vectorToStringLoop (width : List Char → Nat) (dispW : Int) :
    List (List Char) → List Char
  | [] => []
  | l :: rest =>
    l ++ (if (width l : Int) < dispW ∧ rest ≠ [] then ['\n'] else [])
      ++ vectorToStringLoop width dispW rest

/-- The function `vectorToString()` on the global `allLines`. -/
def vectorToString (width : List Char → Nat) (dispW : Int)
    (allLines : List (List Char)) : List Char :=
  vectorToStringLoop width dispW allLines

/-- The two variables of the loop of `stringToVector`. -/
structure TxtState where
  allLines : List (List Char)
  currentLine : List Char
  deriving DecidableEq, Repr

/-- The body of the `if` "new line needed" of `stringToVector`. -/
def flushLine (s : TxtState) : TxtState :=
  if endsWithSpace s.currentLine then
    { allLines := s.allLines ++ [s.currentLine], currentLine := [] }
  else
    match lastIndexOf ' ' s.currentLine with
    | some lastSpace =>
      let partialWord := substringFrom s.currentLine (lastSpace + 1)
      let head := substring s.currentLine 0 lastSpace
      { allLines := s.allLines ++ [head], currentLine := partialWord }
    | none =>
      { allLines := s.allLines ++ [s.currentLine], currentLine := [] }

/-- One iteration of the `for` loop of `stringToVector` on the character `c`. -/
def stvStep (width : List Char → Nat) (dispW : Int) (s : TxtState) (c : Char) : TxtState :=
  let s1 :=
    if (c = '\n' ∨ dispW - 5 ≤ (width s.currentLine : Int)) ∧ s.currentLine ≠ [] then
      flushLine s
    else s
  if c ≠ '\n' then { s1 with currentLine := s1.currentLine ++ [c] } else s1

/-- The function `stringToVector(inputText)`: the new value of `allLines`. -/
def stringToVector (width : List Char → Nat) (dispW : Int) (inputText : List Char) :
    List (List Char) :=
  let s := inputText.foldl (stvStep width dispW) { allLines := [], currentLine := [] }
  if s.currentLine ≠ [] then s.allLines ++ [s.currentLine] else s.allLines

/-- A width measure that is monotone under appending a character. -/
def MonotoneWidth (width : List Char → Nat) : Prop :=
  ∀ (s : List Char) (c : Char), width s ≤ width (s ++ [c])

/-- The bound every flushed line and the accumulator satisfy: without its last
character the line is narrower than `dispW - 5`, or holds no space. -/
def LineBound (width : List Char → Nat) (dispW : Int) (l : List Char) : Prop :=
  (width l.dropLast : Int) < dispW - 5 ∨ ' ' ∉ l.dropLast

/-- The invariant of the loop of `stringToVector`. -/
def StvInv (width : List Char → Nat) (dispW : Int) (s : TxtState) : Prop :=
  (∀ l ∈ s.allLines, LineBound width dispW l) ∧ LineBound width dispW s.currentLine

/-! ## More `String` helpers -/

/-- Arduino `String::indexOf(ch)`: the position of the first `ch`, `none` for `-1`. -/
def indexOf (ch : Char) : List Char → Option Nat
  | [] => none
  | c :: cs => if c = ch then some 0 else (indexOf ch cs).map (· + 1)

/-- Arduino `String::startsWith(prefix)`. -/
def startsWith (s pre : List Char) : Bool := pre.isPrefixOf s

/-- Arduino `String(n)` for an unsigned or non-negative integer: its decimal digits. -/
def decimal (n : Nat) : List Char := Nat.toDigits 10 n

/-- The conversion `%0wd` of `sprintf` on a non-negative integer: decimal digits,
padded with zeros on the left to at least `w` characters. -/
def zeroPad (w n : Nat) : List Char :=
  List.replicate (w - (decimal n).length) '0' ++ decimal n

/-! ## The clock -/

/-- An RTClib `DateTime`, by its accessors `year()` (a `uint16_t`), `month()`, `day()`,
`hour()`, `minute()`, `second()` (each a `uint8_t`). -/
structure DateTime where
  year : Nat
  month : Nat
  day : Nat
  hour : Nat
  minute : Nat
  second : Nat
  deriving DecidableEq, Repr

/-! ## Metadata index -/

/-- What `writeMetadata` reads of the document at `path`: `file.size()` and
`SD().readFileToString`. -/
structure Document where
  sizeBytes : Nat
  text : List Char
  deriving DecidableEq, Repr

/-- The helper `countVisibleChars`: the loop counts the characters `c` with
`c >= 32 && c <= 126`. -/
def countVisibleChars (input : List Char) : Nat :=
  input.foldl (fun count c => if 32 ≤ c.toNat ∧ c.toNat ≤ 126 then count + 1 else count) 0

/-- The loop `while (metaFile.available()) line = metaFile.readStringUntil('\n')`,
with `cur` the characters read so far of the current line: a line ends at each `'\n'`,
which is consumed and not stored; characters left at the end of the file are a last line. -/
def readLinesFrom (cur : List Char) : List Char → List (List Char)
  | [] => if cur = [] then [] else [cur]
  | c :: cs => if c = '\n' then cur :: readLinesFrom [] cs else readLinesFrom (cur ++ [c]) cs

/-- The lines the index functions read from a metadata file with the given content. -/
def readLines (content : List Char) : List (List Char) := readLinesFrom [] content

/-- The `sprintf(timestamp, "%04d%02d%02d-%02d%02d", ...)` of `writeMetadata`. -/
def timestamp (now : DateTime) : List Char :=
  zeroPad 4 now.year ++ zeroPad 2 now.month ++ zeroPad 2 now.day ++ ['-'] ++
    zeroPad 2 now.hour ++ zeroPad 2 now.minute

/-- The `newEntry` of `writeMetadata`:
`path + "|" + timestamp + "|" + fileSizeStr + "|" + charStr`. -/
def newEntry (path : List Char) (doc : Document) (now : DateTime) : List Char :=
  path ++ ['|'] ++ timestamp now ++ ['|'] ++ (decimal doc.sizeBytes ++ " Bytes".toList) ++ ['|']
    ++ (decimal (countVisibleChars doc.text) ++ " Char".toList)

/-- The two variables of the rewrite loop of `writeMetadata`. -/
structure MetaLoop where
  updatedMeta : List Char
  replaced : Bool
  deriving DecidableEq, Repr

/-- One iteration of the rewrite loop of `writeMetadata` on a line read. -/
def writeMetadataStep (path entry : List Char) (st : MetaLoop) (line : List Char) : MetaLoop :=
  if startsWith line (path ++ ['|']) then
    { updatedMeta := st.updatedMeta ++ (entry ++ ['\n']), replaced := true }
  else if line.length > 1 then
    { updatedMeta := st.updatedMeta ++ (line ++ ['\n']), replaced := st.replaced }
  else st

/-- The function `writeMetadata(path)`. `doc` is the document at `path` (`none`: it cannot be
opened or is a directory), `now` the clock reading, `metaFile` the content of the
metadata file (`none`: it cannot be opened for reading) and `openW` whether it opens
for writing. The result is the content of the metadata file afterwards. -/
def writeMetadata (path : List Char) (doc : Option Document) (now : DateTime)
    (metaFile : Option (List Char)) (openW : Bool) : Option (List Char) :=
  match doc with
  | none => metaFile
  | some d =>
    let entry := newEntry path d now
    let st : MetaLoop :=
      match metaFile with
      | some content =>
        (readLines content).foldl (writeMetadataStep path entry)
          { updatedMeta := [], replaced := false }
      | none => { updatedMeta := [], replaced := false }
    let updatedMeta := if ¬ st.replaced then st.updatedMeta ++ (entry ++ ['\n']) else st.updatedMeta
    if openW then some updatedMeta else metaFile

/-- Arduino `Print::println(line)`: the line followed by carriage return and line feed. -/
def println (line : List Char) : List Char := line ++ ['\r', '\n']

/-- The `keptLines` of `deleteMetadata`: the lines read that do not start with `path + "|"`. -/
def deleteMetadataLines (path : List Char) (lines : List (List Char)) : List (List Char) :=
  lines.filter (fun line => ¬ startsWith line (path ++ ['|']))

/-- The function `deleteMetadata(path)` on the content of the metadata file: nothing is done
when it cannot be opened for reading; else it is removed and, when it opens for writing,
recreated with the kept lines, one `println` each. -/
def deleteMetadata (path : List Char) (metaFile : Option (List Char)) (openW : Bool) :
    Option (List Char) :=
  match metaFile with
  | none => none
  | some content =>
    if openW then
      some ((deleteMetadataLines path (readLines content)).map println).flatten
    else none

/-- The rewrite of one line in the loop of `renMetadata`. -/
def renLine (oldPath newPath line : List Char) : List Char :=
  if startsWith line (oldPath ++ ['|']) then
    match indexOf '|' line with
    | some separatorIndex => newPath ++ substringFrom line separatorIndex
    | none => newPath
  else line

/-- The `updatedLines` of `renMetadata`. -/
def renMetadataLines (oldPath newPath : List Char) (lines : List (List Char)) :
    List (List Char) :=
  lines.map (renLine oldPath newPath)

/-- The function `renMetadata(oldPath, newPath)` on the content of the metadata file. -/
def renMetadata (oldPath newPath : List Char) (metaFile : Option (List Char)) (openW : Bool) :
    Option (List Char) :=
  match metaFile with
  | none => none
  | some content =>
    if openW then
      some ((renMetadataLines oldPath newPath (readLines content)).map println).flatten
    else none

/-- The lines read from the metadata file; none when it cannot be opened. -/
def indexLines (metaFile : Option (List Char)) : List (List Char) :=
  match metaFile with
  | some content => readLines content
  | none => []

/-- A file written line by line, a line feed after each line (`line + "\n"`). -/
def joinLines (lines : List (List Char)) : List Char :=
  (lines.map (· ++ ['\n'])).flatten

/-- The lines `writeMetadata` writes for the lines read: the new entry in place of
each line that starts with `path + "|"`, the other lines longer than one character,
and the new entry at the end when no line was replaced. -/
def writeMetadataLines (path entry : List Char) (lines : List (List Char)) :
    List (List Char) :=
  lines.filterMap (fun line =>
      if startsWith line (path ++ ['|']) then some entry
      else if line.length > 1 then some line else none)
    ++ (if lines.any (fun line => startsWith line (path ++ ['|'])) then [] else [entry])

/-! ## Setting the clock -/

/-- C `isspace` in the "C" locale: space, and the control characters 9 to 13. -/
def isSpaceC (c : Char) : Bool := c = ' ' ∨ (9 ≤ c.toNat ∧ c.toNat ≤ 13)

/-- The decimal digits at the start of a string, as a number; `acc` is the value read
so far. -/
def digitsValue (acc : Nat) : List Char → Nat
  | [] => acc
  | c :: cs => if c.isDigit then digitsValue (10 * acc + (c.toNat - 48)) cs else acc

/-- Arduino `String::toInt()`, which is `atol`: white space is skipped, then an optional
sign and the decimal digits up to the first other character are read; the result is 0
when no digit is there. (The strings converted here have two characters, so `long`
does not overflow.) -/
def toInt (s : List Char) : Int :=
  match s.dropWhile isSpaceC with
  | '-' :: rest => - (digitsValue 0 rest : Int)
  | '+' :: rest => (digitsValue 0 rest : Int)
  | rest => (digitsValue 0 rest : Int)

/-- The function `setTimeFromString(timeStr)`, with `now` the reading `CLOCK().nowDT()`:
the `DateTime` handed to `adjust`, or `none` when the function returns without
adjusting the clock. -/
def setTimeFromString (timeStr : List Char) (now : DateTime) : Option DateTime :=
  if timeStr.length ≠ 5 ∨ timeStr[2]? ≠ some ':' then none
  else
    let hours := toInt (substring timeStr 0 2)
    let minutes := toInt (substring timeStr 3 5)
    if hours < 0 ∨ hours > 23 ∨ minutes < 0 ∨ minutes > 59 then none
    else
      some { year := now.year, month := now.month, day := now.day,
             hour := hours.toNat, minute := minutes.toNat, second := 0 }

/-! ## Battery state

Voltages are rational numbers. A `float` or `double` of the source is the rational it
denotes; a decimal literal is rounded to the nearest number of its format, ties to even.
-/

/-- The integer nearest to `n / d`, ties to the even one. -/
def nearestEven (n d : Nat) : Nat :=
  let q := n / d
  let r := n % d
  if 2 * r < d then q else if d < 2 * r then q + 1 else if q % 2 = 0 then q else q + 1

/-- The multiple of `2 ^ (-k)` nearest to `n / d`, ties to even. -/
def roundToSpacing (k n d : Nat) : ℚ := (nearestEven (n * 2 ^ k) d : ℚ) / 2 ^ k

/-- The literal `4.1`, a `double`: between 4 and 8 these are the multiples of `2 ^ (-50)`. -/
def lit_4_1 : ℚ := roundToSpacing 50 41 10

/-- The literal `3.9`, a `double`: between 2 and 4 these are the multiples of `2 ^ (-51)`. -/
def lit_3_9 : ℚ := roundToSpacing 51 39 10

/-- The literal `3.8`, a `double`. -/
def lit_3_8 : ℚ := roundToSpacing 51 38 10

/-- The literal `3.7`, a `double`. -/
def lit_3_7 : ℚ := roundToSpacing 51 37 10

/-- The constant `const float threshold = 0.05`: the literal is a `double` (between
`2 ^ (-5)` and `2 ^ (-4)` the multiples of `2 ^ (-57)`), converted to `float` (there the
multiples of `2 ^ (-28)`). -/
def threshold : ℚ := roundToSpacing 28 (nearestEven (5 * 2 ^ 57) 100) (2 ^ 57)

/-- A number of the format `float` (IEEE 754 binary32): `m * 2 ^ e` with `|m| < 2 ^ 24`
and `-149 ≤ e ≤ 104`. -/
def IsBinary32 (v : ℚ) : Prop :=
  ∃ m e : ℤ, |m| < 2 ^ 24 ∧ -149 ≤ e ∧ e ≤ 104 ∧ v = m * (2 : ℚ) ^ e

/-- The variables `updateBattState` keeps between calls: the global `battState` and the
statics `prevBattState` and `prevVoltage`. -/
structure BattVars where
  battState : Int
  prevBattState : Int
  prevVoltage : ℚ
  deriving DecidableEq

/-- What one call of `updateBattState` reads: the filtered voltage (the value of the
static `filteredVoltage` after the smoothing of lines 772 to 777), the result of
`PowerSystem.getChargeStatus(chg)` and `chg.code`, the result of
`PowerSystem.isBatteryLow(low)` and `low`, `SD().getEditingFile()` and `fileLoaded`. -/
structure BattInput where
  filteredVoltage : ℚ
  chargeStatusOk : Bool
  chargeCode : Nat
  batteryLowRet : Bool
  low : Bool
  editingFile : List Char
  fileLoaded : Bool
  deriving DecidableEq

/-- The outcome of one call of `updateBattState`: the variables, whether
`deepSleep(false)` was entered (the call then never returns and the variables are as
before) and whether `saveMarkdownFile` was called before that. -/
structure BattTick where
  vars : BattVars
  deepSleep : Bool
  saved : Bool
  deriving DecidableEq

/-- The test "charging state overrides everything": `getChargeStatus` succeeded and the
code is one of `0b001` to `0b101`. -/
def isCharging (i : BattInput) : Bool :=
  i.chargeStatusOk && (i.chargeCode == 1 || i.chargeCode == 2 || i.chargeCode == 3 ||
    i.chargeCode == 4 || i.chargeCode == 5)

/-- The chain "normal battery voltage thresholds with hysteresis": the value of
`newState` after it, which starts as `battState`. -/
def classify (prevBattState battState : Int) (filteredVoltage : ℚ) : Int :=
  if filteredVoltage > lit_4_1 ∨ (prevBattState = 4 ∧ filteredVoltage > lit_4_1 - threshold) then 4
  else if filteredVoltage > lit_3_9 ∨
      (prevBattState = 3 ∧ filteredVoltage > lit_3_9 - threshold) then 3
  else if filteredVoltage > lit_3_8 ∨
      (prevBattState = 2 ∧ filteredVoltage > lit_3_8 - threshold) then 2
  else if filteredVoltage > lit_3_7 ∨
      (prevBattState = 1 ∧ filteredVoltage > lit_3_7 - threshold) then 1
  else if filteredVoltage ≤ lit_3_7 then 0
  else battState

/-- The end of `updateBattState`: `battState` and `prevBattState` are set to `newState`
when it differs from `battState`, and `prevVoltage` to the filtered voltage. -/
def commitBattState (s : BattVars) (newState : Int) (filteredVoltage : ℚ) : BattVars :=
  if newState ≠ s.battState then
    { battState := newState, prevBattState := newState, prevVoltage := filteredVoltage }
  else
    { battState := s.battState, prevBattState := s.prevBattState,
      prevVoltage := filteredVoltage }

/-- The function `updateBattState()`, from the declaration of `prevVoltage` on. -/
def updateBattState (s : BattVars) (i : BattInput) : BattTick :=
  if isCharging i then
    { vars := commitBattState s 5 i.filteredVoltage, deepSleep := false, saved := false }
  else if !i.batteryLowRet && i.low then
    { vars := s, deepSleep := true,
      saved := decide (i.editingFile ≠ [] ∧ i.editingFile ≠ ['-'] ∧
        i.editingFile ≠ "/temp.txt".toList ∧ i.fileLoaded = true) }
  else
    { vars := commitBattState s (classify s.prevBattState s.battState i.filteredVoltage)
        i.filteredVoltage,
      deepSleep := false, saved := false }

/-- The variables at start-up: `battState = 0`, `prevBattState = -1`, `prevVoltage = 0.0`. -/
def initBattVars : BattVars := { battState := 0, prevBattState := -1, prevVoltage := 0 }

/-- The values of the variables that calls of `updateBattState` can produce from
start-up. -/
inductive BattReachable : BattVars → Prop
  | init : BattReachable initBattVars
  | tick (s : BattVars) (i : BattInput) :
      BattReachable s → (updateBattState s i).deepSleep = false →
      BattReachable (updateBattState s i).vars

/-- The battery states reported by successive calls of `updateBattState`, one per call
that returns; the run ends when the device goes to sleep. -/
def runTicks (s : BattVars) : List BattInput → List Int
  | [] => []
  | i :: rest =>
    if (updateBattState s i).deepSleep then []
    else (updateBattState s i).vars.battState :: runTicks (updateBattState s i).vars rest

/-- The relation between `battState` and `prevBattState` that every call of
`updateBattState` keeps: they are equal, or still at their initial values. -/
def BattInv (s : BattVars) : Prop :=
  s.prevBattState = s.battState ∨ (s.prevBattState = -1 ∧ s.battState = 0)

/-- A reading with the given filtered voltage on which the charge controller answers
with the code 0 (not charging), the battery-low read succeeds with `low` false, and
no document is open. -/
def quietInput (v : ℚ) : BattInput :=
  { filteredVoltage := v, chargeStatusOk := true, chargeCode := 0, batteryLowRet := true,
    low := false, editingFile := [], fileLoaded := false }

/-- The values of the enumerators of `AppState` that `loadState` names; the enumeration is
declared in `globals.h`. -/
structure AppStateCodes where
  HOME : Int
  TXT : Int
  SETTINGS : Int
  TASKS : Int
  USB_APP : Int
  CALENDAR : Int
  LEXICON : Int
  JOURNAL : Int
  deriving DecidableEq

/-- The namespace `"PocketMage"` of the preferences store, by the keys `loadState` reads;
`none` is a key the store holds no value for. -/
structure Prefs where
  TIMEOUT : Option Int
  DEBUG_VERBOSE : Option Bool
  SYSTEM_CLOCK : Option Bool
  SHOW_YEAR : Option Bool
  SAVE_POWER : Option Bool
  ALLOW_NO_SD : Option Bool
  editingFile : Option (List Char)
  HOME_ON_BOOT : Option Bool
  OLED_BRIGHTNESS : Option Int
  OLED_MAX_FPS : Option Int
  OTA1 : Option (List Char)
  OTA2 : Option (List Char)
  OTA3 : Option (List Char)
  OTA4 : Option (List Char)
  CurrentAppState : Option Int
  deriving DecidableEq

/-- The globals `loadState` sets from the store. -/
structure Settings where
  TIMEOUT : Int
  DEBUG_VERBOSE : Bool
  SYSTEM_CLOCK : Bool
  SHOW_YEAR : Bool
  SAVE_POWER : Bool
  ALLOW_NO_MICROSD : Bool
  editingFile : List Char
  HOME_ON_BOOT : Bool
  OLED_BRIGHTNESS : Int
  OLED_MAX_FPS : Int
  OTA1_APP : List Char
  OTA2_APP : List Char
  OTA3_APP : List Char
  OTA4_APP : List Char
  deriving DecidableEq

/-- The initializers the `switch` of `loadState` calls. -/
inductive Initializer
  | HOME_INIT
  | TXT_INIT
  | SETTINGS_INIT
  | TASKS_INIT
  | CALENDAR_INIT
  | LEXICON_INIT
  | JOURNAL_INIT
  deriving DecidableEq

/-- What `loadState` leaves: the globals read, `CurrentAppState`, and the initializer it
called, if any. -/
structure LoadResult where
  settings : Settings
  CurrentAppState : Int
  initializer : Option Initializer
  deriving DecidableEq

/-- The `switch (CurrentAppState)` of `loadState`, its cases in the order of the source. -/
def bootInitializer (codes : AppStateCodes) (state : Int) : Option Initializer :=
  if state = codes.HOME then some Initializer.HOME_INIT
  else if state = codes.TXT then some Initializer.TXT_INIT
  else if state = codes.SETTINGS then some Initializer.SETTINGS_INIT
  else if state = codes.TASKS then some Initializer.TASKS_INIT
  else if state = codes.USB_APP then some Initializer.HOME_INIT
  else if state = codes.CALENDAR then some Initializer.CALENDAR_INIT
  else if state = codes.LEXICON then some Initializer.LEXICON_INIT
  else if state = codes.JOURNAL then some Initializer.JOURNAL_INIT
  else none

/-- The function `loadState(changeState)`; `current` is `CurrentAppState` before the call. -/
def loadState (codes : AppStateCodes) (prefs : Prefs) (changeState : Bool) (current : Int) :
    LoadResult :=
  let settings : Settings :=
    { TIMEOUT := prefs.TIMEOUT.getD 120
      DEBUG_VERBOSE := prefs.DEBUG_VERBOSE.getD true
      SYSTEM_CLOCK := prefs.SYSTEM_CLOCK.getD true
      SHOW_YEAR := prefs.SHOW_YEAR.getD true
      SAVE_POWER := prefs.SAVE_POWER.getD true
      ALLOW_NO_MICROSD := prefs.ALLOW_NO_SD.getD false
      editingFile := prefs.editingFile.getD []
      HOME_ON_BOOT := prefs.HOME_ON_BOOT.getD false
      OLED_BRIGHTNESS := prefs.OLED_BRIGHTNESS.getD 255
      OLED_MAX_FPS := prefs.OLED_MAX_FPS.getD 30
      OTA1_APP := prefs.OTA1.getD ['-']
      OTA2_APP := prefs.OTA2.getD ['-']
      OTA3_APP := prefs.OTA3.getD ['-']
      OTA4_APP := prefs.OTA4.getD ['-'] }
  if changeState then
    let state := if settings.HOME_ON_BOOT then codes.HOME
      else prefs.CurrentAppState.getD codes.HOME
    { settings := settings, CurrentAppState := state,
      initializer := bootInitializer codes state }
  else
    { settings := settings, CurrentAppState := current, initializer := none }

/-- A store that holds no value for any key. -/
def emptyPrefs : Prefs :=
  { TIMEOUT := none, DEBUG_VERBOSE := none, SYSTEM_CLOCK := none, SHOW_YEAR := none,
    SAVE_POWER := none, ALLOW_NO_SD := none, editingFile := none, HOME_ON_BOOT := none,
    OLED_BRIGHTNESS := none, OLED_MAX_FPS := none, OTA1 := none, OTA2 := none, OTA3 := none,
    OTA4 := none, CurrentAppState := none }

/-- The enumerators numbered in the order of the `switch` of `loadState`. -/
def switchOrderCodes : AppStateCodes :=
  { HOME := 0, TXT := 1, SETTINGS := 2, TASKS := 3, USB_APP := 4, CALENDAR := 5,
    LEXICON := 6, JOURNAL := 7 }

/-! ## Idle timeout: `checkTimeout`

Times are readings of `millis()`, taken as integers (the `int` variables `i` and `j`
of the source hold them without overflow while the device has been up for less than
`2 ^ 31` milliseconds). -/

/-- One turn of the loop "give a chance to keep device awake": the reading `j = millis()`,
whether `digitalRead(KB_IRQ) == 0`, and the reading of `millis()` that
`setPrevTimeMillis` gets after the `delay(500)` when it is. -/
structure Poll where
  millis : Int
  kbIrqLow : Bool
  millisAfter : Int
  deriving DecidableEq

/-- How the loop of the grace window ends: a keyboard interrupt was seen and the previous
input time is set to the given reading; or the window ran out; or the readings given
ran out while the loop was still turning. -/
inductive GraceResult
  | cancelled (prevTimeMillis : Int)
  | expired
  | pending
  deriving DecidableEq

/-- The loop `while ((j - i) <= 4000) { j = millis(); if (digitalRead(KB_IRQ) == 0) ... }`
on the readings of its successive turns; `j` is the last reading taken. -/
def graceLoop (i : Int) : Int → List Poll → GraceResult
  | j, [] => if j - i ≤ 4000 then GraceResult.pending else GraceResult.expired
  | j, p :: rest =>
    if j - i ≤ 4000 then
      if p.kbIrqLow then GraceResult.cancelled p.millisAfter
      else graceLoop i p.millis rest
    else GraceResult.expired

/-- What one call of `checkTimeout` reads. `timeDiff` is `CLOCK().getTimeDiff()`, the time
since the last input; `millis0` the reading stored by `setTimeoutMillis`; `millisI` and
`millisJ` the initial values of `i` and `j`; `polls` the turns of the grace loop;
`millisElse` the reading used when the timeout is disabled. The others are the globals
and pins the function tests. -/
structure TimeoutInput where
  disableTimeout : Bool
  TIMEOUT : Int
  timeDiff : Int
  prevTimeMillis : Int
  millis0 : Int
  millisI : Int
  millisJ : Int
  polls : List Poll
  millisElse : Int
  editingFile : List Char
  fileLoaded : Bool
  pwrBtnEvent : Bool
  pwrBtnLow : Bool
  homeStateNowLater : Bool
  chrgSensHigh : Bool
  doNowLater : Bool
  deriving DecidableEq

/-- The ways a call of `checkTimeout` ends. -/
inductive TimeoutOutcome
  | cancelled
  | sleptOnTimeout
  | sleptOnButton
  | deferred
  | resumed
  | active
  | pending
  deriving DecidableEq

/-- What a call of `checkTimeout` did: how it ended, the previous input time and the
timeout flag afterwards, and whether it called `saveMarkdownFile`, wrote the session
state to the preferences store, entered `deepSleep`. -/
structure TimeoutResult where
  outcome : TimeoutOutcome
  prevTimeMillis : Int
  disableTimeout : Bool
  saved : Bool
  prefsWritten : Bool
  deepSleep : Bool
  deriving DecidableEq

/-- The test before each `saveMarkdownFile`: the editing path is none of the empty string,
`-` and `/temp.txt`, and a file is loaded. -/
def shouldSave (editingFile : List Char) (fileLoaded : Bool) : Bool :=
  decide (editingFile ≠ [] ∧ editingFile ≠ ['-'] ∧ editingFile ≠ "/temp.txt".toList ∧
    fileLoaded = true)

/-- The part "Power Button Event sleep" of `checkTimeout`, entered with the given previous
input time. -/
def powerButtonPart (t : TimeoutInput) (prevTimeMillis : Int) : TimeoutResult :=
  if (t.pwrBtnEvent || t.pwrBtnLow) && !t.homeStateNowLater then
    if t.chrgSensHigh && t.doNowLater then
      { outcome := TimeoutOutcome.deferred, prevTimeMillis := prevTimeMillis,
        disableTimeout := true, saved := shouldSave t.editingFile t.fileLoaded,
        prefsWritten := true, deepSleep := false }
    else
      { outcome := TimeoutOutcome.sleptOnButton, prevTimeMillis := prevTimeMillis,
        disableTimeout := t.disableTimeout, saved := shouldSave t.editingFile t.fileLoaded,
        prefsWritten := true, deepSleep := true }
  else if (t.pwrBtnEvent || t.pwrBtnLow) && t.homeStateNowLater then
    { outcome := TimeoutOutcome.resumed, prevTimeMillis := prevTimeMillis,
      disableTimeout := t.disableTimeout, saved := false, prefsWritten := false,
      deepSleep := false }
  else
    { outcome := TimeoutOutcome.active, prevTimeMillis := prevTimeMillis,
      disableTimeout := t.disableTimeout, saved := false, prefsWritten := false,
      deepSleep := false }

/-- The function `checkTimeout()`. -/
def checkTimeout (t : TimeoutInput) : TimeoutResult :=
  if !t.disableTimeout then
    if t.timeDiff ≥ t.TIMEOUT * 1000 then
      match graceLoop t.millisI t.millisJ t.polls with
      | GraceResult.cancelled m =>
        { outcome := TimeoutOutcome.cancelled, prevTimeMillis := m,
          disableTimeout := t.disableTimeout, saved := false, prefsWritten := false,
          deepSleep := false }
      | GraceResult.expired =>
        { outcome := TimeoutOutcome.sleptOnTimeout, prevTimeMillis := t.prevTimeMillis,
          disableTimeout := t.disableTimeout, saved := shouldSave t.editingFile t.fileLoaded,
          prefsWritten := true, deepSleep := true }
      | GraceResult.pending =>
        { outcome := TimeoutOutcome.pending, prevTimeMillis := t.prevTimeMillis,
          disableTimeout := t.disableTimeout, saved := false, prefsWritten := false,
          deepSleep := false }
    else powerButtonPart t t.prevTimeMillis
  else powerButtonPart t t.millisElse

/-- The scenario of the idle timer: timeout 5 s, no input for 5 s, the grace window
entered at 5000 ms, polls every 500 ms, and a key event at the poll 2 s into the
window. -/
def graceScenario : TimeoutInput :=
  { disableTimeout := false, TIMEOUT := 5, timeDiff := 5000, prevTimeMillis := 0,
    millis0 := 5000, millisI := 5000, millisJ := 5000,
    polls := [{ millis := 5500, kbIrqLow := false, millisAfter := 6000 },
              { millis := 6000, kbIrqLow := false, millisAfter := 6500 },
              { millis := 6500, kbIrqLow := false, millisAfter := 7000 },
              { millis := 7000, kbIrqLow := true, millisAfter := 7500 },
              { millis := 7500, kbIrqLow := false, millisAfter := 8000 }],
    millisElse := 5000, editingFile := "/notes.txt".toList, fileLoaded := true,
    pwrBtnEvent := false, pwrBtnLow := false, homeStateNowLater := false,
    chrgSensHigh := false, doNowLater := false }

/-! ## File operations and the index -/

/-- A call of one of the index functions, with the paths handed to it. -/
inductive MetaCall
  | writeMetadata (path : List Char)
  | deleteMetadata (path : List Char)
  | renMetadata (oldPath newPath : List Char)
  deriving DecidableEq

/-- The step `if (!name.startsWith("/")) name = "/" + name`. -/
def withLeadingSlash (name : List Char) : List Char :=
  if !startsWith name ['/'] then '/' :: name else name

/-- The function `saveFile()`: the index call it makes, none when there is no SD card.
`editingFile` is `SD().getEditingFile()` on entry; an empty one or `-` becomes
`/temp.txt`. -/
def saveFile (noSD : Bool) (editingFile : List Char) : Option MetaCall :=
  if noSD then none
  else
    let e1 := if editingFile = [] ∨ editingFile = ['-'] then "/temp.txt".toList else editingFile
    let e2 := withLeadingSlash e1
    some (MetaCall.writeMetadata e2)

/-- The function `delFile(fileName)`: the index call it makes. -/
def delFile (noSD : Bool) (fileName : List Char) : Option MetaCall :=
  if noSD then none
  else some (MetaCall.deleteMetadata (withLeadingSlash fileName))

/-- The function `renFile(oldFile, newFile)`: the index call it makes. -/
def renFile (noSD : Bool) (oldFile newFile : List Char) : Option MetaCall :=
  if noSD then none
  else some (MetaCall.renMetadata (withLeadingSlash oldFile) (withLeadingSlash newFile))

/-- The function `copyFile(oldFile, newFile)`: the index call it makes. -/
def copyFile (noSD : Bool) (oldFile newFile : List Char) : Option MetaCall :=
  if noSD then none
  else
    let _oldFile := withLeadingSlash oldFile
    some (MetaCall.writeMetadata (withLeadingSlash newFile))

/-- The function `appendToFile(path, inText)`: the index call it makes. -/
def appendToFile (noSD : Bool) (path _inText : List Char) : Option MetaCall :=
  if noSD then none
  else some (MetaCall.writeMetadata path)

/-- The paths handed to the index function by a call. -/
def MetaCall.paths : MetaCall → List (List Char)
  | MetaCall.writeMetadata p => [p]
  | MetaCall.deleteMetadata p => [p]
  | MetaCall.renMetadata o n => [o, n]

/-- The state of the loop of `stringToVector` once the first line is flushed and the
second starts with `word`: either the accumulator still holds that start, or the second
line is flushed and starts with it. -/
def SecondLineStarts (first word : List Char) (s : TxtState) : Prop :=
  (s.allLines = [first] ∧ word <+: s.currentLine) ∨
    ∃ second more, s.allLines = first :: second :: more ∧ word <+: second

/-- A width measure, monotone under appending characters, that is 400 for a text that
starts with `t` and ten times the length for any other. -/
def wideT (s : List Char) : Nat :=
  if s.head? = some 't' then 400 else 10 * s.length

end PocketMage

/-! # Theorems -/

namespace PocketMage

/-! ## Lemmas on the `String` helpers -/

theorem width_prefix_le {width : List Char → Nat} (hw : MonotoneWidth width)
    (p q : List Char) : width p ≤ width (p ++ q) := by
  induction q generalizing p with
  | nil => simp
  | cons c q ih =>
    have h1 := hw p c
    have h2 := ih (p ++ [c])
    simp only [List.append_assoc, List.singleton_append] at h2
    exact le_trans h1 h2

theorem lastIndexOf_eq_none_iff (ch : Char) (s : List Char) :
    lastIndexOf ch s = none ↔ ch ∉ s := by
  induction s with
  | nil => simp [lastIndexOf]
  | cons c cs ih =>
    simp only [lastIndexOf, List.mem_cons, not_or]
    cases h : lastIndexOf ch cs with
    | none =>
      have := ih.mp h
      by_cases hc : c = ch
      · simp [hc]
      · simp [hc, this, Ne.symm hc]
    | some i =>
      have : ¬ ch ∉ cs := fun hn => by simp [ih.mpr hn] at h
      simp [this]

theorem lastIndexOf_some {ch : Char} {s : List Char} {i : Nat}
    (h : lastIndexOf ch s = some i) :
    s = s.take i ++ ch :: s.drop (i + 1) ∧ ch ∉ s.drop (i + 1) := by
  induction s generalizing i with
  | nil => simp [lastIndexOf] at h
  | cons c cs ih =>
    simp only [lastIndexOf] at h
    cases h2 : lastIndexOf ch cs with
    | none =>
      rw [h2] at h
      by_cases hc : c = ch
      · simp only [hc, if_true, Option.some.injEq] at h
        subst h
        subst hc
        simpa using (lastIndexOf_eq_none_iff c cs).mp h2
      · simp [hc] at h
    | some j =>
      rw [h2] at h
      simp only [Option.some.injEq] at h
      subst h
      obtain ⟨e1, e2⟩ := ih h2
      refine ⟨?_, by simpa using e2⟩
      simp only [List.take_succ_cons, List.drop_succ_cons, List.cons_append]
      rw [← e1]

theorem substring_zero (s : List Char) (i : Nat) : substring s 0 i = s.take i := by
  simp [substring]

theorem substringFrom_eq_drop (s : List Char) (i : Nat) : substringFrom s i = s.drop i := by
  unfold substringFrom substring
  by_cases h : i ≤ s.length
  · simp [h]
  · have h2 : s.length ≤ i := by omega
    simp [h2, List.drop_eq_nil_of_le]

theorem endsWithSpace_append_singleton (s : List Char) (c : Char) :
    endsWithSpace (s ++ [c]) = (c == ' ') := by
  simp [endsWithSpace]

theorem endsWithSpace_nil : endsWithSpace [] = false := rfl

end PocketMage

namespace PocketMage

/-! ## Text buffer: round trip -/

/-- Scanning characters that force no break only extends the accumulator. -/
theorem foldl_stvStep_no_break {width : List Char → Nat} {dispW : Int}
    (hw : MonotoneWidth width) (acc : List (List Char)) (cur l : List Char)
    (hnl : '\n' ∉ l) (hfit : (width (cur ++ l) : Int) < dispW - 5) :
    l.foldl (stvStep width dispW) { allLines := acc, currentLine := cur } =
      { allLines := acc, currentLine := cur ++ l } := by
  induction l generalizing cur with
  | nil => simp
  | cons c l ih =>
    have hc : c ≠ '\n' := fun h => hnl (by simp [h])
    have hnl2 : '\n' ∉ l := fun h => hnl (by simp [h])
    have hle : (width cur : Int) ≤ (width (cur ++ c :: l) : Int) := by
      exact_mod_cast width_prefix_le hw cur (c :: l)
    have hno : ¬ ((c = '\n' ∨ dispW - 5 ≤ (width cur : Int)) ∧ cur ≠ []) := by
      rintro ⟨h | h, _⟩
      · exact hc h
      · omega
    have hstep : stvStep width dispW { allLines := acc, currentLine := cur } c =
        { allLines := acc, currentLine := cur ++ [c] } := by
      simp only [stvStep]
      rw [if_neg hno, if_pos hc]
    rw [List.foldl_cons, hstep, ih (cur ++ [c]) hnl2 (by simpa using hfit)]
    simp

/-- A line that ends in a space or holds no space is flushed whole. -/
theorem flushLine_whole (acc : List (List Char)) (l : List Char)
    (h : endsWithSpace l = true ∨ ' ' ∉ l) :
    flushLine { allLines := acc, currentLine := l } =
      { allLines := acc ++ [l], currentLine := [] } := by
  unfold flushLine
  by_cases he : endsWithSpace l = true
  · simp [he]
  · have hn : ' ' ∉ l := h.resolve_left he
    simp [he, (lastIndexOf_eq_none_iff ' ' l).mpr hn]

theorem vectorToStringLoop_cons_cons (width : List Char → Nat) (dispW : Int)
    (l l2 : List Char) (rest : List (List Char)) (hlt : (width l : Int) < dispW) :
    vectorToStringLoop width dispW (l :: l2 :: rest) =
      l ++ '\n' :: vectorToStringLoop width dispW (l2 :: rest) := by
  rw [vectorToStringLoop]
  simp only [hlt, ne_eq, reduceCtorEq, not_false_eq_true, and_self, if_true,
    List.append_assoc, List.singleton_append]

theorem stv_roundtrip_aux {width : List Char → Nat} {dispW : Int}
    (hw : MonotoneWidth width) (lines : List (List Char)) (acc : List (List Char))
    (hlines : ∀ l ∈ lines, l ≠ [] ∧ '\n' ∉ l ∧ (width l : Int) < dispW - 5)
    (hsp : ∀ l ∈ lines.dropLast, endsWithSpace l = true ∨ ' ' ∉ l) :
    (let s := (vectorToStringLoop width dispW lines).foldl (stvStep width dispW)
        { allLines := acc, currentLine := [] }
     if s.currentLine ≠ [] then s.allLines ++ [s.currentLine] else s.allLines) =
      acc ++ lines := by
  induction lines generalizing acc with
  | nil => simp [vectorToStringLoop]
  | cons l rest ih =>
    obtain ⟨hne, hnl, hfit⟩ := hlines l (by simp)
    cases rest with
    | nil =>
      simp only [vectorToStringLoop, ne_eq, not_true_eq_false, and_false, if_false,
        List.append_nil]
      rw [foldl_stvStep_no_break hw acc [] l hnl (by simpa using hfit)]
      simp [hne]
    | cons l2 rest =>
      have hlt : (width l : Int) < dispW := by omega
      have hsp1 : endsWithSpace l = true ∨ ' ' ∉ l := hsp l (by simp [List.dropLast])
      rw [vectorToStringLoop_cons_cons width dispW l l2 rest hlt, List.foldl_append,
        List.foldl_cons, foldl_stvStep_no_break hw acc [] l hnl (by simpa using hfit)]
      have hstep : stvStep width dispW { allLines := acc, currentLine := [] ++ l } '\n' =
          { allLines := acc ++ [l], currentLine := [] } := by
        simp only [stvStep, List.nil_append, true_or, ne_eq, hne, not_false_eq_true, and_self,
          if_true, not_true_eq_false, if_false]
        exact flushLine_whole acc l hsp1
      rw [hstep]
      have := ih (acc ++ [l]) (fun x hx => hlines x (by simp [hx]))
        (fun x hx => hsp x (by
          simp only [List.dropLast_cons₂] at hx ⊢
          exact List.mem_cons_of_mem _ hx))
      rw [this]
      simp

end PocketMage

namespace PocketMage

/-! ## Text buffer: a line break after a line with an inner space -/

theorem flushLine_allLines_prefix (s : TxtState) :
    ∃ more, (flushLine s).allLines = s.allLines ++ more := by
  unfold flushLine
  split
  · exact ⟨_, rfl⟩
  · split
    · exact ⟨_, rfl⟩
    · exact ⟨_, rfl⟩

theorem stvStep_allLines_prefix (width : List Char → Nat) (dispW : Int) (s : TxtState)
    (c : Char) : ∃ more, (stvStep width dispW s c).allLines = s.allLines ++ more := by
  simp only [stvStep]
  split
  · split
    · exact flushLine_allLines_prefix s
    · exact ⟨[], by simp⟩
  · split
    · exact flushLine_allLines_prefix s
    · exact ⟨[], by simp⟩

theorem foldl_stvStep_allLines_prefix (width : List Char → Nat) (dispW : Int)
    (text : List Char) (s : TxtState) :
    ∃ more, (text.foldl (stvStep width dispW) s).allLines = s.allLines ++ more := by
  induction text generalizing s with
  | nil => exact ⟨[], by simp⟩
  | cons c text ih =>
    obtain ⟨m1, h1⟩ := stvStep_allLines_prefix width dispW s c
    obtain ⟨m2, h2⟩ := ih (stvStep width dispW s c)
    exact ⟨m1 ++ m2, by rw [List.foldl_cons, h2, h1, List.append_assoc]⟩

theorem vectorToStringLoop_append (width : List Char → Nat) (dispW : Int)
    (pre rest : List (List Char)) (hrest : rest ≠ [])
    (hpre : ∀ l ∈ pre, (width l : Int) < dispW) :
    vectorToStringLoop width dispW (pre ++ rest) =
      joinLines pre ++ vectorToStringLoop width dispW rest := by
  induction pre with
  | nil => simp [joinLines]
  | cons l pre ih =>
    have hl := hpre l (by simp)
    have hne : pre ++ rest ≠ [] := by simp [hrest]
    rw [List.cons_append, vectorToStringLoop, ih (fun x hx => hpre x (by simp [hx]))]
    simp [hl, hne, joinLines]

theorem foldl_stvStep_joinLines {width : List Char → Nat} {dispW : Int}
    (hw : MonotoneWidth width) (pre : List (List Char)) (acc : List (List Char))
    (hpre : ∀ l ∈ pre, l ≠ [] ∧ '\n' ∉ l ∧ (width l : Int) < dispW - 5)
    (hsp : ∀ l ∈ pre, endsWithSpace l = true ∨ ' ' ∉ l) :
    (joinLines pre).foldl (stvStep width dispW) { allLines := acc, currentLine := [] } =
      { allLines := acc ++ pre, currentLine := [] } := by
  induction pre generalizing acc with
  | nil => simp [joinLines]
  | cons l pre ih =>
    obtain ⟨hne, hnl, hfit⟩ := hpre l (by simp)
    have hstep : stvStep width dispW { allLines := acc, currentLine := [] ++ l } '\n' =
        { allLines := acc ++ [l], currentLine := [] } := by
      simp only [stvStep, List.nil_append, true_or, ne_eq, hne, not_false_eq_true, and_self,
        if_true, not_true_eq_false, if_false]
      exact flushLine_whole acc l (hsp l (by simp))
    have := ih (acc ++ [l]) (fun x hx => hpre x (by simp [hx])) (fun x hx => hsp x (by simp [hx]))
    simp only [joinLines, List.map_cons, List.flatten_cons, List.append_assoc,
      List.singleton_append, List.foldl_append, List.foldl_cons] at this ⊢
    rw [foldl_stvStep_no_break hw acc [] l hnl (by simpa using hfit), hstep, this]

theorem stvStep_newline (width : List Char → Nat) (dispW : Int) (s : TxtState)
    (h : s.currentLine ≠ []) : stvStep width dispW s '\n' = flushLine s := by
  unfold stvStep
  simp [h]

/-- The loss is general: when the first line that holds a space without ending in one
is not the last line, the round trip does not give the lines back. -/
theorem stringToVector_vectorToString_ne (width : List Char → Nat) (dispW : Int)
    (pre post : List (List Char)) (l l2 : List Char) (hw : MonotoneWidth width)
    (hlines : ∀ x ∈ pre ++ l :: l2 :: post, x ≠ [] ∧ '\n' ∉ x ∧ (width x : Int) < dispW - 5)
    (hsp : ∀ x ∈ pre, endsWithSpace x = true ∨ ' ' ∉ x)
    (hl1 : endsWithSpace l = false) (hl2 : ' ' ∈ l) :
    stringToVector width dispW (vectorToString width dispW (pre ++ l :: l2 :: post)) ≠
      pre ++ l :: l2 :: post := by
  obtain ⟨hne, hnl, hfit⟩ := hlines l (by simp)
  have hpre : ∀ x ∈ pre, x ≠ [] ∧ '\n' ∉ x ∧ (width x : Int) < dispW - 5 :=
    fun x hx => hlines x (by simp [hx])
  obtain ⟨i, hi⟩ : ∃ i, lastIndexOf ' ' l = some i := by
    cases h : lastIndexOf ' ' l with
    | none => exact absurd hl2 ((lastIndexOf_eq_none_iff ' ' l).mp h)
    | some i => exact ⟨i, rfl⟩
  obtain ⟨hsplit, _⟩ := lastIndexOf_some hi
  have hlen : (l.take i).length < l.length := by
    have h := congrArg List.length hsplit
    simp only [List.length_append, List.length_cons] at h
    omega
  have hflush : flushLine { allLines := [] ++ pre, currentLine := [] ++ l } =
      { allLines := pre ++ [l.take i], currentLine := l.drop (i + 1) } := by
    simp [flushLine, hl1, hi, substring_zero, substringFrom_eq_drop]
  have hstep : stvStep width dispW { allLines := [] ++ pre, currentLine := [] ++ l } '\n' =
      { allLines := pre ++ [l.take i], currentLine := l.drop (i + 1) } := by
    rw [stvStep_newline width dispW _ (by simpa using hne), hflush]
  unfold stringToVector vectorToString
  rw [vectorToStringLoop_append width dispW pre (l :: l2 :: post) (by simp)
      (fun x hx => by have := (hpre x hx).2.2; omega),
    vectorToStringLoop_cons_cons width dispW l l2 post (by omega),
    List.foldl_append, foldl_stvStep_joinLines hw pre [] hpre hsp,
    List.foldl_append, foldl_stvStep_no_break hw ([] ++ pre) [] l hnl (by simpa using hfit),
    List.foldl_cons, hstep]
  obtain ⟨more, hmore⟩ := foldl_stvStep_allLines_prefix width dispW
    (vectorToStringLoop width dispW (l2 :: post))
    { allLines := pre ++ [l.take i], currentLine := l.drop (i + 1) }
  generalize List.foldl (stvStep width dispW)
    { allLines := pre ++ [l.take i], currentLine := l.drop (i + 1) }
    (vectorToStringLoop width dispW (l2 :: post)) = st at hmore ⊢
  intro heq
  simp only [hmore] at heq
  have key : ∃ tail, pre ++ [l.take i] ++ tail = pre ++ l :: l2 :: post := by
    split at heq
    · exact ⟨more ++ [st.currentLine], by rw [← heq]; simp⟩
    · exact ⟨more, heq⟩
  obtain ⟨tail, ht⟩ := key
  rw [List.append_assoc, List.append_cancel_left_eq] at ht
  simp only [List.singleton_append, List.cons.injEq] at ht
  have := congrArg List.length ht.1
  omega

end PocketMage

namespace PocketMage

/-! ## Text buffer: width of the produced lines -/

theorem lineBound_nil (width : List Char → Nat) (dispW : Int) : LineBound width dispW [] := by
  right; simp

theorem lineBound_of_not_mem (width : List Char → Nat) (dispW : Int) (l : List Char)
    (h : ' ' ∉ l) : LineBound width dispW l :=
  Or.inr fun hm => h (List.mem_of_mem_dropLast hm)

theorem endsWithSpace_false_drop {s : List Char} {i : Nat}
    (he : endsWithSpace s = false) (h : s = s.take i ++ ' ' :: s.drop (i + 1)) :
    s.drop (i + 1) ≠ [] := by
  intro hnil
  rw [hnil] at h
  have : endsWithSpace s = true := by
    rw [h]
    have := endsWithSpace_append_singleton (s.take i) ' '
    simpa using this
  rw [he] at this
  exact Bool.noConfusion this

theorem flushLine_inv {width : List Char → Nat} {dispW : Int} (hw : MonotoneWidth width)
    (s : TxtState) (h : StvInv width dispW s) :
    (∀ l ∈ (flushLine s).allLines, LineBound width dispW l) ∧
      ' ' ∉ (flushLine s).currentLine := by
  obtain ⟨hall, hcur⟩ := h
  simp only [flushLine]
  by_cases he : endsWithSpace s.currentLine = true
  · rw [if_pos he]
    simp only [List.mem_append, List.mem_singleton]
    refine ⟨?_, by simp⟩
    rintro l (hl | rfl)
    · exact hall l hl
    · exact hcur
  · have he2 : endsWithSpace s.currentLine = false := by simpa using he
    rw [if_neg he]
    cases hli : lastIndexOf ' ' s.currentLine with
    | none =>
      simp only [List.mem_append, List.mem_singleton, List.append_eq]
      refine ⟨?_, by simp⟩
      rintro l (hl | rfl)
      · exact hall l hl
      · exact hcur
    | some i =>
      obtain ⟨hsplit, hnot⟩ := lastIndexOf_some hli
      have htail := endsWithSpace_false_drop he2 hsplit
      simp only [substring_zero, substringFrom_eq_drop, List.mem_append, List.mem_singleton,
        List.append_eq]
      refine ⟨?_, hnot⟩
      rintro l (hl | rfl)
      · exact hall l hl
      · -- the head `take i` followed by the space is a prefix of the accumulator
        -- without its last character
        have hdl : s.currentLine.dropLast =
            (s.currentLine.take i ++ [' ']) ++ (s.currentLine.drop (i + 1)).dropLast := by
          conv_lhs => rw [hsplit]
          rw [List.dropLast_append_of_ne_nil _ (by simp)]
          rw [List.dropLast_cons_of_ne_nil htail]
          simp
        rcases hcur with hlt | hns
        · left
          have h1 : width (s.currentLine.take i).dropLast ≤ width (s.currentLine.take i) := by
            have := width_prefix_le hw (s.currentLine.take i).dropLast
              ((s.currentLine.take i).getLast?.toList)
            rcases List.eq_nil_or_concat (s.currentLine.take i) with hn | ⟨p, c, hp⟩
            · rw [hn]; simp
            · rw [hp]; simpa using hw p c
          have h2 : width (s.currentLine.take i) ≤ width s.currentLine.dropLast := by
            rw [hdl, List.append_assoc]
            exact width_prefix_le hw _ _
          have h3 : (width (s.currentLine.take i).dropLast : Int) ≤
              (width s.currentLine.dropLast : Int) := by exact_mod_cast le_trans h1 h2
          omega
        · exfalso
          apply hns
          rw [hdl]
          simp

theorem stvStep_inv {width : List Char → Nat} {dispW : Int} (hw : MonotoneWidth width)
    (s : TxtState) (c : Char) (h : StvInv width dispW s) :
    StvInv width dispW (stvStep width dispW s c) := by
  simp only [stvStep]
  by_cases hb : (c = '\n' ∨ dispW - 5 ≤ (width s.currentLine : Int)) ∧ s.currentLine ≠ []
  · obtain ⟨h1, h2⟩ := flushLine_inv hw s h
    rw [if_pos hb]
    by_cases hc : c = '\n'
    · rw [if_neg (not_not.mpr hc)]
      exact ⟨h1, lineBound_of_not_mem _ _ _ h2⟩
    · rw [if_pos hc]
      refine ⟨h1, Or.inr ?_⟩
      simpa using h2
  · rw [if_neg hb]
    by_cases hc : c = '\n'
    · rw [if_neg (not_not.mpr hc)]
      exact h
    · rw [if_pos hc]
      refine ⟨h.1, ?_⟩
      by_cases hnil : s.currentLine = []
      · right; simp [hnil]
      · left
        have : ¬ (dispW - 5 ≤ (width s.currentLine : Int)) := fun hle =>
          hb ⟨Or.inr hle, hnil⟩
        simp only [List.dropLast_concat]
        omega

theorem foldl_stvStep_inv {width : List Char → Nat} {dispW : Int} (hw : MonotoneWidth width)
    (text : List Char) (s : TxtState) (h : StvInv width dispW s) :
    StvInv width dispW (text.foldl (stvStep width dispW) s) := by
  induction text generalizing s with
  | nil => exact h
  | cons c text ih => exact ih _ (stvStep_inv hw s c h)

end PocketMage

namespace PocketMage

/-! ## Text buffer: the claims -/

set_option maxRecDepth 8000 in
/-- C1, evaluated where the code fails: with a 6-pixel fixed-width measure on a 320-pixel
display the lines `"a b"`, `"c"` are non-empty, hold no line break and are narrower than
315, and `vectorToString` writes the line break between them; yet `stringToVector` gives
`"a"`, `"bc"`. At the line break the accumulator `"a b"` goes through the split written
for a line that overflows: it is cut at its last space and the complete word `b` is
carried over and fused with the next line. In the same way the text
`Dear diary⏎Today I went out⏎Bye` comes back as `Dear`, `diaryToday I went`, `outBye`.
The two other branches of the same test do keep the break: `"a "`, `"c"` and `"ab"`, `"c"`
are given back unchanged. -/
theorem roundtrip_cuts_line_at_inner_space :
    MonotoneWidth (fun s : List Char => 6 * s.length) ∧
    (∀ l ∈ ["a b".toList, "c".toList],
      l ≠ [] ∧ '\n' ∉ l ∧ ((6 * l.length : Nat) : Int) < 320 - 5) ∧
    vectorToString (fun s => 6 * s.length) 320 ["a b".toList, "c".toList] = "a b\nc".toList ∧
    stringToVector (fun s => 6 * s.length) 320
      (vectorToString (fun s => 6 * s.length) 320 ["a b".toList, "c".toList])
      = ["a".toList, "bc".toList] ∧
    stringToVector (fun s => 6 * s.length) 320
      (vectorToString (fun s => 6 * s.length) 320 ["a b".toList, "c".toList])
      ≠ ["a b".toList, "c".toList] ∧
    stringToVector (fun s => 6 * s.length) 320 "Dear diary\nToday I went out\nBye".toList
      = ["Dear".toList, "diaryToday I went".toList, "outBye".toList] ∧
    stringToVector (fun s => 6 * s.length) 320
      (vectorToString (fun s => 6 * s.length) 320 ["a ".toList, "c".toList])
      = ["a ".toList, "c".toList] ∧
    stringToVector (fun s => 6 * s.length) 320
      (vectorToString (fun s => 6 * s.length) 320 ["ab".toList, "c".toList])
      = ["ab".toList, "c".toList] := by
  refine ⟨fun s c => by simp, by decide, by decide, by decide, by decide, by decide,
    by decide, by decide⟩

/-- What holds of C1 in the code: for every width measure monotone under appending
characters and every sequence of non-empty lines that hold no line-break character, are
each narrower than `display width - 5`, and of which every line but the last ends in a
space or holds no space (so that no line break meets the split at the last space),
`stringToVector (vectorToString lines)` is the same sequence of lines. -/
theorem stringToVector_vectorToString (width : List Char → Nat) (dispW : Int)
    (lines : List (List Char)) (hw : MonotoneWidth width)
    (hlines : ∀ l ∈ lines, l ≠ [] ∧ '\n' ∉ l ∧ (width l : Int) < dispW - 5)
    (hsp : ∀ l ∈ lines.dropLast, endsWithSpace l = true ∨ ' ' ∉ l) :
    stringToVector width dispW (vectorToString width dispW lines) = lines := by
  have := stv_roundtrip_aux hw lines [] hlines hsp
  simpa [stringToVector, vectorToString] using this

/-- An instance of `stringToVector_vectorToString`: a three-line document under a 6-pixel
fixed-width measure on a 320-pixel display. -/
theorem stringToVector_vectorToString_example :
    MonotoneWidth (fun s : List Char => 6 * s.length) ∧
    stringToVector (fun s => 6 * s.length) 320
      (vectorToString (fun s => 6 * s.length) 320
        ["hello world ".toList, "title".toList, "this is a test".toList])
      = ["hello world ".toList, "title".toList, "this is a test".toList] :=
  ⟨fun s c => by simp,
   stringToVector_vectorToString (fun s => 6 * s.length) 320
     ["hello world ".toList, "title".toList, "this is a test".toList]
     (fun s c => by simp) (by decide) (by decide)⟩

set_option maxRecDepth 8000 in
/-- C2, as stated, fails: with a 12-pixel fixed-width measure on a 320-pixel display the
text `the quick brown fox jumped over` yields the first line
`the quick brown fox jumped ` of 27 characters, which holds spaces (so it is not a
single unsplittable word) and is 324 pixels wide: the width is tested before a
character is appended, never after. -/
theorem stringToVector_line_wider_than_display :
    MonotoneWidth (fun s : List Char => 12 * s.length) ∧
    stringToVector (fun s => 12 * s.length) 320 "the quick brown fox jumped over".toList
      = ["the quick brown fox jumped ".toList, "over".toList] ∧
    ' ' ∈ "the quick brown fox jumped ".toList ∧
    (320 : Int) < ((12 * "the quick brown fox jumped ".toList.length : Nat) : Int) := by
  refine ⟨fun s c => by simp, by decide, by decide, by decide⟩

/-- C2, amended: for every input text and every width measure monotone under appending
characters, every line produced by `stringToVector`, taken without its last character,
has rendered width less than `display width - 5`, except when what remains holds no
space (a single unsplittable word, extended by at most one character). -/
theorem stringToVector_line_bound (width : List Char → Nat) (dispW : Int)
    (text : List Char) (hw : MonotoneWidth width) :
    ∀ l ∈ stringToVector width dispW text,
      (width l.dropLast : Int) < dispW - 5 ∨ ' ' ∉ l.dropLast := by
  have hinv := foldl_stvStep_inv hw text { allLines := [], currentLine := [] }
    ⟨by simp, lineBound_nil width dispW⟩
  intro l hl
  unfold stringToVector at hl
  simp only at hl
  split at hl
  · rcases List.mem_append.mp hl with h | h
    · exact hinv.1 l h
    · rw [List.mem_singleton.mp h]; exact hinv.2
  · exact hinv.1 l hl

/-- Witness for `stringToVector_line_bound`: the same 12-pixel measure and text. -/
theorem stringToVector_line_bound_witness :
    MonotoneWidth (fun s : List Char => 12 * s.length) ∧
    ∀ l ∈ stringToVector (fun s => 12 * s.length) 320
        "the quick brown fox jumped over".toList,
      ((12 * l.dropLast.length : Nat) : Int) < 320 - 5 ∨ ' ' ∉ l.dropLast :=
  ⟨fun s c => by simp,
   stringToVector_line_bound (fun s => 12 * s.length) 320
     "the quick brown fox jumped over".toList (fun s c => by simp)⟩

end PocketMage

namespace PocketMage

/-! ## Metadata index: reading and writing lines -/

theorem startsWith_iff (line pre : List Char) :
    startsWith line pre = true ↔ ∃ rest, line = pre ++ rest := by
  unfold startsWith
  rw [List.isPrefixOf_iff_prefix]
  constructor
  · rintro ⟨t, ht⟩; exact ⟨t, ht.symm⟩
  · rintro ⟨t, ht⟩; exact ⟨t, ht.symm⟩

theorem readLinesFrom_line (cur l rest : List Char) (hl : '\n' ∉ l) :
    readLinesFrom cur (l ++ '\n' :: rest) = (cur ++ l) :: readLinesFrom [] rest := by
  induction l generalizing cur with
  | nil => simp [readLinesFrom]
  | cons c l ih =>
    have hc : c ≠ '\n' := fun h => hl (by simp [h])
    have hl2 : '\n' ∉ l := fun h => hl (by simp [h])
    simp only [List.cons_append, readLinesFrom, hc, if_false, List.append_eq]
    rw [ih (cur ++ [c]) hl2]
    simp

theorem readLines_joinLines (lines : List (List Char)) (h : ∀ l ∈ lines, '\n' ∉ l) :
    readLines (joinLines lines) = lines := by
  induction lines with
  | nil => simp [readLines, joinLines, readLinesFrom]
  | cons l ls ih =>
    have h1 := h l (by simp)
    have h2 := ih (fun x hx => h x (by simp [hx]))
    simp only [readLines, joinLines, List.map_cons, List.flatten_cons, List.append_assoc,
      List.singleton_append] at h2 ⊢
    rw [readLinesFrom_line [] l _ h1, h2]
    simp

theorem readLinesFrom_no_newline (cur content : List Char) (hcur : '\n' ∉ cur) :
    ∀ l ∈ readLinesFrom cur content, '\n' ∉ l := by
  induction content generalizing cur with
  | nil =>
    intro l hl
    simp only [readLinesFrom] at hl
    split at hl
    · simp at hl
    · rw [List.mem_singleton.mp hl]; exact hcur
  | cons c cs ih =>
    intro l hl
    simp only [readLinesFrom] at hl
    split at hl
    · rcases List.mem_cons.mp hl with h | h
      · rw [h]; exact hcur
      · exact ih [] (by simp) l h
    · rename_i hc
      exact ih (cur ++ [c]) (by simp [hcur, Ne.symm hc]) l hl

theorem indexLines_no_newline (metaFile : Option (List Char)) :
    ∀ l ∈ indexLines metaFile, '\n' ∉ l := by
  cases metaFile with
  | none => simp [indexLines]
  | some c => exact readLinesFrom_no_newline [] c (by simp)

theorem foldl_writeMetadataStep (path entry : List Char) (lines : List (List Char))
    (st : MetaLoop) :
    lines.foldl (writeMetadataStep path entry) st =
      { updatedMeta := st.updatedMeta ++ joinLines (lines.filterMap (fun line =>
          if startsWith line (path ++ ['|']) then some entry
          else if line.length > 1 then some line else none)),
        replaced := st.replaced || lines.any (fun line => startsWith line (path ++ ['|'])) } := by
  induction lines generalizing st with
  | nil => simp [joinLines]
  | cons l ls ih =>
    rw [List.foldl_cons, ih]
    unfold writeMetadataStep
    by_cases h1 : startsWith l (path ++ ['|']) = true
    · simp [h1, joinLines]
    · by_cases h2 : l.length > 1
      · simp [h1, h2, joinLines]
      · simp [h1, h2, joinLines]

/-- The file `writeMetadata` leaves is the lines of `writeMetadataLines`, a line feed
after each. -/
theorem writeMetadata_eq (path : List Char) (d : Document) (now : DateTime)
    (metaFile : Option (List Char)) :
    writeMetadata path (some d) now metaFile true =
      some (joinLines (writeMetadataLines path (newEntry path d now) (indexLines metaFile))) := by
  cases metaFile with
  | none => simp [writeMetadata, indexLines, writeMetadataLines, joinLines]
  | some c =>
    simp only [writeMetadata, indexLines, foldl_writeMetadataStep, List.nil_append,
      Bool.false_or, if_true, writeMetadataLines]
    by_cases h : (readLines c).any (fun line => startsWith line (path ++ ['|'])) = true
    · simp [h, joinLines]
    · simp [h, joinLines]

theorem countVisibleChars_eq_countP (input : List Char) :
    countVisibleChars input = input.countP (fun c => 32 ≤ c.toNat ∧ c.toNat ≤ 126) := by
  unfold countVisibleChars
  suffices h : ∀ n, input.foldl (fun count c =>
      if 32 ≤ c.toNat ∧ c.toNat ≤ 126 then count + 1 else count) n =
      n + input.countP (fun c => 32 ≤ c.toNat ∧ c.toNat ≤ 126) by simpa using h 0
  induction input with
  | nil => simp
  | cons c cs ih =>
    intro n
    rw [List.foldl_cons, ih]
    by_cases hc : 32 ≤ c.toNat ∧ c.toNat ≤ 126
    · simp [hc, List.countP_cons]; omega
    · simp [hc, List.countP_cons]

end PocketMage

namespace PocketMage

/-! ## Metadata index: the new entry holds no line feed -/

theorem digitChar_ne_newline (k : Nat) (hk : k < 10) : Nat.digitChar k ≠ '\n' := by
  interval_cases k <;> decide

theorem toDigitsCore_no_newline (fuel n : Nat) (ds : List Char) (hds : '\n' ∉ ds) :
    '\n' ∉ Nat.toDigitsCore 10 fuel n ds := by
  induction fuel generalizing n ds with
  | zero => simpa [Nat.toDigitsCore] using hds
  | succ fuel ih =>
    have hd : '\n' ∉ Nat.digitChar (n % 10) :: ds := by
      simp only [List.mem_cons, not_or]
      exact ⟨Ne.symm (digitChar_ne_newline _ (Nat.mod_lt _ (by decide))), hds⟩
    simp only [Nat.toDigitsCore]
    split
    · exact hd
    · exact ih _ _ hd

theorem decimal_no_newline (n : Nat) : '\n' ∉ decimal n :=
  toDigitsCore_no_newline _ _ [] (by simp)

theorem zeroPad_no_newline (w n : Nat) : '\n' ∉ zeroPad w n := by
  unfold zeroPad
  simp only [List.mem_append, not_or]
  refine ⟨?_, decimal_no_newline n⟩
  intro h
  have := List.eq_of_mem_replicate h
  exact absurd this (by decide)

theorem newEntry_no_newline (path : List Char) (d : Document) (now : DateTime)
    (hp : '\n' ∉ path) : '\n' ∉ newEntry path d now := by
  have hb : '\n' ∉ " Bytes".toList := by decide
  have hc : '\n' ∉ " Char".toList := by decide
  simp [newEntry, timestamp, hp, zeroPad_no_newline, decimal_no_newline, hb, hc]

theorem newEntry_startsWith (path : List Char) (d : Document) (now : DateTime) :
    startsWith (newEntry path d now) (path ++ ['|']) = true := by
  rw [startsWith_iff]
  exact ⟨timestamp now ++ ['|'] ++ (decimal d.sizeBytes ++ " Bytes".toList) ++ ['|']
    ++ (decimal (countVisibleChars d.text) ++ " Char".toList), by simp [newEntry]⟩

/-! ## Metadata index: rewriting twice -/

theorem filterMap_writeMetadata_idem (path entry : List Char) (lines : List (List Char))
    (he : startsWith entry (path ++ ['|']) = true) :
    (lines.filterMap (fun line =>
        if startsWith line (path ++ ['|']) then some entry
        else if line.length > 1 then some line else none)).filterMap (fun line =>
        if startsWith line (path ++ ['|']) then some entry
        else if line.length > 1 then some line else none) =
      lines.filterMap (fun line =>
        if startsWith line (path ++ ['|']) then some entry
        else if line.length > 1 then some line else none) := by
  induction lines with
  | nil => simp
  | cons l ls ih =>
    by_cases h1 : startsWith l (path ++ ['|']) = true
    · simp only [List.filterMap_cons, h1, if_true, he]
      rw [ih]
    · by_cases h2 : l.length > 1
      · simp only [List.filterMap_cons, h1, h2, if_true, Bool.false_eq_true, if_false]
        rw [ih]
      · simp only [List.filterMap_cons, h1, h2, Bool.false_eq_true, if_false]
        exact ih

theorem any_filterMap_writeMetadata (path entry : List Char) (lines : List (List Char))
    (he : startsWith entry (path ++ ['|']) = true) :
    (lines.filterMap (fun line =>
        if startsWith line (path ++ ['|']) then some entry
        else if line.length > 1 then some line else none)).any
        (fun line => startsWith line (path ++ ['|'])) =
      lines.any (fun line => startsWith line (path ++ ['|'])) := by
  induction lines with
  | nil => simp
  | cons l ls ih =>
    by_cases h1 : startsWith l (path ++ ['|']) = true
    · simp [List.filterMap_cons, h1, he]
    · by_cases h2 : l.length > 1
      · simp only [List.filterMap_cons, h1, h2, if_true, Bool.false_eq_true, if_false,
          List.any_cons, ih]
      · simp only [List.filterMap_cons, h1, h2, Bool.false_eq_true, if_false, List.any_cons,
          ih, Bool.false_or]

theorem writeMetadataLines_idem (path entry : List Char) (lines : List (List Char))
    (he : startsWith entry (path ++ ['|']) = true) :
    writeMetadataLines path entry (writeMetadataLines path entry lines) =
      writeMetadataLines path entry lines := by
  unfold writeMetadataLines
  by_cases h : lines.any (fun line => startsWith line (path ++ ['|'])) = true
  · simp only [h, if_true, List.append_nil]
    rw [filterMap_writeMetadata_idem path entry lines he,
      any_filterMap_writeMetadata path entry lines he, h]
    simp
  · simp only [h, Bool.false_eq_true, if_false]
    rw [List.filterMap_append, filterMap_writeMetadata_idem path entry lines he]
    simp [he]

theorem writeMetadataLines_no_newline (path entry : List Char) (lines : List (List Char))
    (he : '\n' ∉ entry) (hl : ∀ l ∈ lines, '\n' ∉ l) :
    ∀ l ∈ writeMetadataLines path entry lines, '\n' ∉ l := by
  intro l hmem
  unfold writeMetadataLines at hmem
  rcases List.mem_append.mp hmem with h | h
  · obtain ⟨x, hx, hfx⟩ := List.mem_filterMap.mp h
    split at hfx
    · cases hfx; exact he
    · split at hfx
      · cases hfx; exact hl _ hx
      · cases hfx
  · split at h
    · simp at h
    · rw [List.mem_singleton.mp h]; exact he

end PocketMage

namespace PocketMage

/-! ## Metadata index: writing a record for a path that has none -/

/-- The file `writeMetadata` leaves when no line read is of the form `path|...`: the lines
read that are longer than one character, then the new entry, a line feed after each. -/
theorem writeMetadata_of_no_record (path : List Char) (doc : Document) (now : DateTime)
    (metaFile : Option (List Char))
    (hno : ∀ rest, path ++ '|' :: rest ∉ indexLines metaFile) :
    writeMetadata path (some doc) now metaFile true =
      some (joinLines ((indexLines metaFile).filter (fun l => l.length > 1) ++
        [path ++ ['|'] ++
          (zeroPad 4 now.year ++ zeroPad 2 now.month ++ zeroPad 2 now.day ++ ['-'] ++
            zeroPad 2 now.hour ++ zeroPad 2 now.minute) ++ ['|'] ++
          (decimal doc.sizeBytes ++ " Bytes".toList) ++ ['|'] ++
          (decimal (doc.text.countP (fun c => 32 ≤ c.toNat ∧ c.toNat ≤ 126)) ++
            " Char".toList)])) := by
  have hns : ∀ l ∈ indexLines metaFile, startsWith l (path ++ ['|']) = false := by
    intro l hl
    cases hs : startsWith l (path ++ ['|']) with
    | false => rfl
    | true =>
      obtain ⟨rest, hr⟩ := (startsWith_iff _ _).mp hs
      exact absurd hl (by rw [hr]; simpa using hno rest)
  rw [writeMetadata_eq, ← countVisibleChars_eq_countP]
  congr 2
  unfold writeMetadataLines
  have hany : (indexLines metaFile).any (fun line => startsWith line (path ++ ['|'])) = false := by
    rw [List.any_eq_false]
    intro l hl
    simp [hns l hl]
  rw [hany]
  simp only [Bool.false_eq_true, if_false, newEntry, timestamp]
  congr 1
  generalize indexLines metaFile = ls at hns
  induction ls with
  | nil => rfl
  | cons l ls ih =>
    have h1 := hns l (by simp)
    have h2 := ih (fun x hx => hns x (by simp [hx]))
    by_cases hlen : l.length > 1
    · simp only [List.filterMap_cons, h1, Bool.false_eq_true, if_false, hlen, if_true,
        List.filter_cons, decide_True, h2]
    · simp only [List.filterMap_cons, h1, Bool.false_eq_true, if_false, hlen,
        List.filter_cons, decide_False, h2]

end PocketMage

namespace PocketMage

set_option maxRecDepth 20000 in
/-- C5, evaluated where it fails: `writeMetadata` for `/a.txt`, then for `/b.txt`, then
`renMetadata` of `/b.txt` to `/a.txt` leave two lines with the path `/a.txt`; a further
`writeMetadata` for `/a.txt` replaces each of them by the new entry, so two lines of
the index have the path `/a.txt`, not one. -/
theorem writeMetadata_keeps_duplicate_records :
    renMetadata "/b.txt".toList "/a.txt".toList
      (writeMetadata "/b.txt".toList (some { sizeBytes := 3, text := "abc".toList })
        { year := 2024, month := 1, day := 2, hour := 3, minute := 4, second := 0 }
        (writeMetadata "/a.txt".toList (some { sizeBytes := 2, text := "hi".toList })
          { year := 2024, month := 1, day := 2, hour := 3, minute := 4, second := 0 }
          none true) true) true
      = some ("/a.txt|20240102-0304|2 Bytes|2 Char\r\n"
          ++ "/a.txt|20240102-0304|3 Bytes|3 Char\r\n").toList ∧
    writeMetadata "/a.txt".toList (some { sizeBytes := 2, text := "hi".toList })
      { year := 2024, month := 1, day := 2, hour := 3, minute := 5, second := 0 }
      (some ("/a.txt|20240102-0304|2 Bytes|2 Char\r\n"
          ++ "/a.txt|20240102-0304|3 Bytes|3 Char\r\n").toList) true
      = some ("/a.txt|20240102-0305|2 Bytes|2 Char\n"
          ++ "/a.txt|20240102-0305|2 Bytes|2 Char\n").toList ∧
    ((readLines ("/a.txt|20240102-0305|2 Bytes|2 Char\n"
          ++ "/a.txt|20240102-0305|2 Bytes|2 Char\n").toList).filter
        (fun l => l.takeWhile (· ≠ '|') = "/a.txt".toList)).length = 2 := by
  refine ⟨by decide, by decide, by decide⟩

/-- C6, as stated, fails for a path that holds a line feed: on an empty index the first
`writeMetadata` for the path `a⏎b` writes an entry that spans two lines, and the
second, finding no line that starts with `a⏎b|`, drops the one-character line `a` and
appends the entry again. -/
theorem writeMetadata_twice_differs_on_newline_path :
    writeMetadata "a\nb".toList (some { sizeBytes := 2, text := "hi".toList })
      { year := 2024, month := 1, day := 2, hour := 3, minute := 4, second := 0 }
      (some []) true
      = some "a\nb|20240102-0304|2 Bytes|2 Char\n".toList ∧
    writeMetadata "a\nb".toList (some { sizeBytes := 2, text := "hi".toList })
      { year := 2024, month := 1, day := 2, hour := 3, minute := 4, second := 0 }
      (writeMetadata "a\nb".toList (some { sizeBytes := 2, text := "hi".toList })
        { year := 2024, month := 1, day := 2, hour := 3, minute := 4, second := 0 }
        (some []) true) true
      = some ("b|20240102-0304|2 Bytes|2 Char\n"
          ++ "a\nb|20240102-0304|2 Bytes|2 Char\n").toList := by
  refine ⟨by decide, by decide⟩

/-- C6, amended: for every index content, every path that holds no line-feed character,
every document and clock reading, `writeMetadata(path)` applied twice in a row with
the same document and the same clock reading yields the same index as applied once. -/
theorem writeMetadata_idempotent (path : List Char) (doc : Option Document) (now : DateTime)
    (metaFile : Option (List Char)) (openW : Bool) (hp : '\n' ∉ path) :
    writeMetadata path doc now (writeMetadata path doc now metaFile openW) openW =
      writeMetadata path doc now metaFile openW := by
  cases doc with
  | none => rfl
  | some d =>
    cases openW with
    | false => simp [writeMetadata]
    | true =>
      have he := newEntry_startsWith path d now
      have hn := newEntry_no_newline path d now hp
      rw [writeMetadata_eq path d now metaFile, writeMetadata_eq]
      have hread : ∀ c : List Char, indexLines (some c) = readLines c := fun _ => rfl
      rw [hread, readLines_joinLines _ (writeMetadataLines_no_newline _ _ _ hn
        (indexLines_no_newline metaFile)), writeMetadataLines_idem _ _ _ he]

/-- Witness for `writeMetadata_idempotent`: a second write for `/notes.txt` on an index
of two records. -/
theorem writeMetadata_idempotent_witness :
    '\n' ∉ "/notes.txt".toList ∧
    writeMetadata "/notes.txt".toList (some { sizeBytes := 2, text := "hi".toList })
      { year := 2024, month := 1, day := 2, hour := 3, minute := 4, second := 0 }
      (writeMetadata "/notes.txt".toList (some { sizeBytes := 2, text := "hi".toList })
        { year := 2024, month := 1, day := 2, hour := 3, minute := 4, second := 0 }
        (some "/a.txt|20240101-0000|1 Bytes|1 Char\n/notes.txt|20231231-2359|0 Bytes|0 Char\n".toList)
        true) true =
    writeMetadata "/notes.txt".toList (some { sizeBytes := 2, text := "hi".toList })
      { year := 2024, month := 1, day := 2, hour := 3, minute := 4, second := 0 }
      (some "/a.txt|20240101-0000|1 Bytes|1 Char\n/notes.txt|20231231-2359|0 Bytes|0 Char\n".toList)
      true :=
  ⟨by decide,
   writeMetadata_idempotent "/notes.txt".toList (some { sizeBytes := 2, text := "hi".toList })
     { year := 2024, month := 1, day := 2, hour := 3, minute := 4, second := 0 }
     (some "/a.txt|20240101-0000|1 Bytes|1 Char\n/notes.txt|20231231-2359|0 Bytes|0 Char\n".toList)
     true (by decide)⟩

/-! ### `renMetadata` -/

/-- The part of C8 that holds: `writeMetadata` writes no line of length at most one
(for a path without line feed these are the lines of the rewritten index). -/
theorem writeMetadataLines_long (path : List Char) (d : Document) (now : DateTime)
    (lines : List (List Char)) :
    ∀ l ∈ writeMetadataLines path (newEntry path d now) lines, 1 < l.length := by
  have he : 1 < (newEntry path d now).length := by
    simp only [newEntry, List.length_append, List.length_singleton]
    have : (" Char".toList).length = 5 := rfl
    omega
  intro l hmem
  unfold writeMetadataLines at hmem
  rcases List.mem_append.mp hmem with h | h
  · obtain ⟨x, _, hfx⟩ := List.mem_filterMap.mp h
    split at hfx
    · cases hfx; exact he
    · split at hfx
      · rename_i hlen
        cases hfx; exact hlen
      · cases hfx
  · split at h
    · simp at h
    · rw [List.mem_singleton.mp h]; exact he

set_option maxRecDepth 20000 in
/-- C8, evaluated where it fails: on an index whose first line is empty, `deleteMetadata`
and `renMetadata` for another path both write the empty line back (as a bare line
ending), so the rewritten index starts with a line of length at most one. -/
theorem delete_and_rename_carry_blank_line :
    deleteMetadataLines "/b.txt".toList
      (readLines "\n/a.txt|20240102-0304|2 Bytes|2 Char\n".toList)
      = [[], "/a.txt|20240102-0304|2 Bytes|2 Char".toList] ∧
    deleteMetadata "/b.txt".toList
      (some "\n/a.txt|20240102-0304|2 Bytes|2 Char\n".toList) true
      = some "\r\n/a.txt|20240102-0304|2 Bytes|2 Char\r\n".toList ∧
    renMetadataLines "/b.txt".toList "/c.txt".toList
      (readLines "\n/a.txt|20240102-0304|2 Bytes|2 Char\n".toList)
      = [[], "/a.txt|20240102-0304|2 Bytes|2 Char".toList] ∧
    renMetadata "/b.txt".toList "/c.txt".toList
      (some "\n/a.txt|20240102-0304|2 Bytes|2 Char\n".toList) true
      = some "\r\n/a.txt|20240102-0304|2 Bytes|2 Char\r\n".toList ∧
    (readLines "\r\n/a.txt|20240102-0304|2 Bytes|2 Char\r\n".toList).head?
      = some ['\r'] := by
  refine ⟨by decide, by decide, by decide, by decide, by decide⟩

end PocketMage

namespace PocketMage

/-! ## Setting the clock: what holds of the claim -/

theorem zeroPad_two_length (k : Nat) (hk : k < 100) : (zeroPad 2 k).length = 2 := by
  interval_cases k <;> rfl

theorem toInt_zeroPad_two (k : Nat) (hk : k < 100) : toInt (zeroPad 2 k) = (k : Int) := by
  interval_cases k <;> rfl

/-- A string of the shape `HH:MM` with hours at most 23 and minutes at most 59 adjusts
the clock to these hours and minutes, second 0, on the current date. -/
theorem setTimeFromString_valid (h m : Nat) (hh : h ≤ 23) (hm : m ≤ 59) (now : DateTime) :
    setTimeFromString (zeroPad 2 h ++ ':' :: zeroPad 2 m) now =
      some { year := now.year, month := now.month, day := now.day,
             hour := h, minute := m, second := 0 } := by
  have lh := zeroPad_two_length h (by omega)
  have lm := zeroPad_two_length m (by omega)
  have th := toInt_zeroPad_two h (by omega)
  have tm := toInt_zeroPad_two m (by omega)
  have hlen : (zeroPad 2 h ++ ':' :: zeroPad 2 m).length = 5 := by simp [lh, lm]
  have hcolon : (zeroPad 2 h ++ ':' :: zeroPad 2 m)[2]? = some ':' := by
    rw [List.getElem?_append_right (by omega)]
    simp [lh]
  have s1 : substring (zeroPad 2 h ++ ':' :: zeroPad 2 m) 0 2 = zeroPad 2 h := by
    rw [substring_zero, List.take_append_of_le_length (by omega), List.take_of_length_le (by omega)]
  have s2 : substring (zeroPad 2 h ++ ':' :: zeroPad 2 m) 3 5 = zeroPad 2 m := by
    have ht : (zeroPad 2 h ++ ':' :: zeroPad 2 m).take 5 = zeroPad 2 h ++ ':' :: zeroPad 2 m :=
      List.take_of_length_le (by simp [lh, lm])
    show ((zeroPad 2 h ++ ':' :: zeroPad 2 m).take 5).drop 3 = zeroPad 2 m
    rw [ht, List.drop_append_eq_append_drop]
    simp [lh, List.drop_eq_nil_of_le]
  unfold setTimeFromString
  rw [if_neg (by simp [hlen, hcolon])]
  simp only [s1, s2, th, tm]
  rw [if_neg (by omega)]
  simp

/-- A string whose length is not 5, or whose third character is not a colon, leaves
the clock alone. -/
theorem setTimeFromString_bad_shape (timeStr : List Char) (now : DateTime)
    (h : timeStr.length ≠ 5 ∨ timeStr[2]? ≠ some ':') :
    setTimeFromString timeStr now = none := by
  unfold setTimeFromString
  rw [if_pos h]

end PocketMage

namespace PocketMage

/-! ## Setting the clock: the claim -/

/-- C3, evaluated where it fails: the five-character strings `ab:cd` and ` 7:+5` are not
two digits, a colon and two digits, yet `setTimeFromString` adjusts the clock, to 00:00:00
and to 07:05:00 of the current date: `toInt` reads a string without digits as 0 and
skips white space and a sign, and only the length, the colon and the two ranges are
tested. -/
theorem setTimeFromString_accepts_non_digits (now : DateTime) :
    setTimeFromString "ab:cd".toList now =
      some { year := now.year, month := now.month, day := now.day,
             hour := 0, minute := 0, second := 0 } ∧
    setTimeFromString " 7:+5".toList now =
      some { year := now.year, month := now.month, day := now.day,
             hour := 7, minute := 5, second := 0 } :=
  ⟨rfl, rfl⟩

/-! ## Battery state: the constants -/

theorem lit_4_1_eq : lit_4_1 = 2308094809027379 / 2 ^ 49 := by
  norm_num [lit_4_1, roundToSpacing, nearestEven]

theorem lit_3_9_eq : lit_3_9 = 8782019273372467 / 2 ^ 51 := by
  norm_num [lit_3_9, roundToSpacing, nearestEven]

theorem lit_3_8_eq : lit_3_8 = 4278419646001971 / 2 ^ 50 := by
  norm_num [lit_3_8, roundToSpacing, nearestEven]

theorem lit_3_7_eq : lit_3_7 = 4165829655317709 / 2 ^ 50 := by
  norm_num [lit_3_7, roundToSpacing, nearestEven]

theorem threshold_eq : threshold = 13421773 / 2 ^ 28 := by
  norm_num [threshold, roundToSpacing, nearestEven]

/-- Each literal is the number of its format nearest to the decimal it is written as:
its significand has the 53 bits of a `double` (24 of a `float`), and it is within half
a spacing of the decimal. -/
theorem literals_nearest :
    ((2 : ℚ) ^ 52 ≤ lit_4_1 * 2 ^ 50 ∧ lit_4_1 * 2 ^ 50 < 2 ^ 53 ∧
      |lit_4_1 - 41 / 10| ≤ 1 / 2 ^ 51) ∧
    ((2 : ℚ) ^ 52 ≤ lit_3_9 * 2 ^ 51 ∧ lit_3_9 * 2 ^ 51 < 2 ^ 53 ∧
      |lit_3_9 - 39 / 10| ≤ 1 / 2 ^ 52) ∧
    ((2 : ℚ) ^ 52 ≤ lit_3_8 * 2 ^ 51 ∧ lit_3_8 * 2 ^ 51 < 2 ^ 53 ∧
      |lit_3_8 - 38 / 10| ≤ 1 / 2 ^ 52) ∧
    ((2 : ℚ) ^ 52 ≤ lit_3_7 * 2 ^ 51 ∧ lit_3_7 * 2 ^ 51 < 2 ^ 53 ∧
      |lit_3_7 - 37 / 10| ≤ 1 / 2 ^ 52) ∧
    ((2 : ℚ) ^ 23 ≤ threshold * 2 ^ 28 ∧ threshold * 2 ^ 28 < 2 ^ 24 ∧
      |threshold - 1 / 20| ≤ 1 / 2 ^ 29 + 1 / 2 ^ 58) := by
  rw [lit_4_1_eq, lit_3_9_eq, lit_3_8_eq, lit_3_7_eq, threshold_eq]
  refine ⟨⟨?_, ?_, ?_⟩, ⟨?_, ?_, ?_⟩, ⟨?_, ?_, ?_⟩, ⟨?_, ?_, ?_⟩, ⟨?_, ?_, ?_⟩⟩ <;>
    first
    | (rw [abs_le]; constructor <;> norm_num)
    | norm_num

/-- The differences `4.1 - threshold`, ..., `3.7 - threshold` are themselves numbers of
the format `double` (multiples of `2 ^ (-50)` between 4 and 8, of `2 ^ (-51)` between 2
and 4), so the subtraction of the source does not round. -/
theorem hysteresis_edges_exact :
    lit_4_1 - threshold = 4559894621873766 / 2 ^ 50 ∧
    lit_3_9 - threshold = 8669429281010483 / 2 ^ 51 ∧
    lit_3_8 - threshold = 8444249299641958 / 2 ^ 51 ∧
    lit_3_7 - threshold = 8219069318273434 / 2 ^ 51 ∧
    (2 : ℚ) ^ 52 ≤ 4559894621873766 ∧ (4559894621873766 : ℚ) < 2 ^ 53 ∧
    (2 : ℚ) ^ 52 ≤ 8669429281010483 ∧ (8669429281010483 : ℚ) < 2 ^ 53 ∧
    (2 : ℚ) ^ 52 ≤ 8444249299641958 ∧ (8444249299641958 : ℚ) < 2 ^ 53 ∧
    (2 : ℚ) ^ 52 ≤ 8219069318273434 ∧ (8219069318273434 : ℚ) < 2 ^ 53 := by
  rw [lit_4_1_eq, lit_3_9_eq, lit_3_8_eq, lit_3_7_eq, threshold_eq]
  norm_num

/-- A `float` that is at least 2 is a multiple of `2 ^ (-22)`. -/
theorem binary32_grid (v : ℚ) (hv : IsBinary32 v) (h2 : 2 ≤ v) :
    ∃ N : ℤ, v = (N : ℚ) / 2 ^ 22 := by
  obtain ⟨m, e, hm, _, _, rfl⟩ := hv
  have hpos : (0 : ℚ) < (2 : ℚ) ^ e := zpow_pos (by norm_num) e
  have hmq : (m : ℚ) < 2 ^ 24 := by
    have : m < 2 ^ 24 := lt_of_le_of_lt (le_abs_self m) hm
    exact_mod_cast this
  have he : -22 ≤ e := by
    by_contra hlt
    have hle : e ≤ -23 := by omega
    have h1 : (2 : ℚ) ^ e ≤ (2 : ℚ) ^ (-23 : ℤ) := zpow_le_zpow_right₀ (by norm_num) hle
    have h3 : (m : ℚ) * (2 : ℚ) ^ e < 2 := by
      by_cases hm0 : (m : ℚ) ≤ 0
      · have : (m : ℚ) * (2 : ℚ) ^ e ≤ 0 := mul_nonpos_of_nonpos_of_nonneg hm0 hpos.le
        linarith
      · have hm1 : (0 : ℚ) < m := lt_of_not_le hm0
        calc (m : ℚ) * (2 : ℚ) ^ e ≤ (m : ℚ) * (2 : ℚ) ^ (-23 : ℤ) :=
              mul_le_mul_of_nonneg_left h1 hm1.le
          _ < 2 ^ 24 * (2 : ℚ) ^ (-23 : ℤ) :=
              mul_lt_mul_of_pos_right hmq (zpow_pos (by norm_num) _)
          _ = 2 := by norm_num
    linarith
  obtain ⟨k, hk⟩ : ∃ k : ℕ, e = (k : ℤ) - 22 := ⟨(e + 22).toNat, by omega⟩
  refine ⟨m * 2 ^ k, ?_⟩
  rw [hk, zpow_sub₀ (by norm_num : (2 : ℚ) ≠ 0), zpow_natCast]
  push_cast
  rw [zpow_ofNat]
  ring

/-- No `float` lies in the gap between `3.9 - threshold` and 3.85. -/
theorem binary32_below_3_85 (v : ℚ) (hv : IsBinary32 v) (h : v < 77 / 20) :
    v ≤ lit_3_9 - threshold := by
  rw [hysteresis_edges_exact.2.1]
  by_cases h2 : 2 ≤ v
  · obtain ⟨N, rfl⟩ := binary32_grid v hv h2
    have hN : (N : ℚ) < 16148071 := by
      have := (div_lt_iff₀ (by norm_num : (0 : ℚ) < 2 ^ 22)).mp h
      norm_num at this
      linarith
    have hN2 : N ≤ 16148070 := by
      have : N < 16148071 := by exact_mod_cast hN
      omega
    have hN3 : (N : ℚ) ≤ 16148070 := by exact_mod_cast hN2
    rw [div_le_div_iff₀ (by norm_num) (by norm_num)]
    norm_num
    linarith
  · have : v < 2 := lt_of_not_le h2
    norm_num
    linarith

/-- No `float` lies in the gap between `3.8 - threshold` and 3.75. -/
theorem binary32_below_3_75 (v : ℚ) (hv : IsBinary32 v) (h : v < 15 / 4) :
    v ≤ lit_3_8 - threshold := by
  rw [hysteresis_edges_exact.2.2.1]
  by_cases h2 : 2 ≤ v
  · obtain ⟨N, rfl⟩ := binary32_grid v hv h2
    have hN : (N : ℚ) < 15728640 := by
      have := (div_lt_iff₀ (by norm_num : (0 : ℚ) < 2 ^ 22)).mp h
      norm_num at this
      linarith
    have hN2 : N ≤ 15728639 := by
      have : N < 15728640 := by exact_mod_cast hN
      omega
    have hN3 : (N : ℚ) ≤ 15728639 := by exact_mod_cast hN2
    rw [div_le_div_iff₀ (by norm_num) (by norm_num)]
    norm_num
    linarith
  · have : v < 2 := lt_of_not_le h2
    norm_num
    linarith

end PocketMage

namespace PocketMage

/-! ## Battery state: one call -/

theorem commitBattState_battState (s : BattVars) (n : Int) (v : ℚ) :
    (commitBattState s n v).battState = n := by
  unfold commitBattState
  split
  · rfl
  · rename_i h
    simpa using (not_not.mp h).symm

theorem commitBattState_inv (s : BattVars) (n : Int) (v : ℚ) (h : BattInv s) :
    BattInv (commitBattState s n v) := by
  unfold commitBattState
  split
  · left; rfl
  · exact h

theorem updateBattState_inv (s : BattVars) (i : BattInput) (h : BattInv s) :
    BattInv (updateBattState s i).vars := by
  unfold updateBattState
  split
  · exact commitBattState_inv _ _ _ h
  · split
    · exact h
    · exact commitBattState_inv _ _ _ h

theorem battInv_of_reachable (s : BattVars) (h : BattReachable s) : BattInv s := by
  induction h with
  | init => right; exact ⟨rfl, rfl⟩
  | tick s i _ _ ih => exact updateBattState_inv s i ih

/-- The classification inside the band around 4.10 V. -/
theorem classify_band_4_1 (p b : Int) (v : ℚ) (h1 : 41 / 10 - 1 / 20 < v)
    (_h2 : v < 41 / 10 + 1 / 20) :
    classify p b v = if v > lit_4_1 ∨ p = 4 then 4 else 3 := by
  have e := hysteresis_edges_exact
  unfold classify
  rw [e.1, lit_4_1_eq, lit_3_9_eq]
  by_cases hv : v > 2308094809027379 / 2 ^ 49
  · simp [hv]
  · by_cases hp : p = 4
    · have : v > 4559894621873766 / 2 ^ 50 := by norm_num at h1 ⊢; linarith
      simp [hp, this]
    · have h3 : v > 8782019273372467 / 2 ^ 51 := by norm_num at h1 ⊢; linarith
      simp [hv, hp, h3]

/-- The classification inside the band around 3.90 V. -/
theorem classify_band_3_9 (p b : Int) (v : ℚ) (h1 : 39 / 10 - 1 / 20 < v)
    (h2 : v < 39 / 10 + 1 / 20) :
    classify p b v = if v > lit_3_9 ∨ p = 3 then 3 else 2 := by
  have e := hysteresis_edges_exact
  unfold classify
  rw [e.1, e.2.1, lit_4_1_eq, lit_3_9_eq, lit_3_8_eq]
  have n1 : ¬ v > 2308094809027379 / 2 ^ 49 := by norm_num at h2 ⊢; linarith
  have n2 : ¬ v > 4559894621873766 / 2 ^ 50 := by norm_num at h2 ⊢; linarith
  by_cases hv : v > 8782019273372467 / 2 ^ 51
  · simp [n1, n2, hv]
  · by_cases hp : p = 3
    · have : v > 8669429281010483 / 2 ^ 51 := by norm_num at h1 ⊢; linarith
      simp [n1, n2, hp, this]
    · have h3 : v > 4278419646001971 / 2 ^ 50 := by norm_num at h1 ⊢; linarith
      simp [n1, n2, hv, hp, h3]

/-- The classification inside the band around 3.80 V, for a `float`. -/
theorem classify_band_3_8 (p b : Int) (v : ℚ) (hf : IsBinary32 v) (h1 : 38 / 10 - 1 / 20 < v)
    (h2 : v < 38 / 10 + 1 / 20) :
    classify p b v = if v > lit_3_8 ∨ p = 2 then 2 else 1 := by
  have e := hysteresis_edges_exact
  have g : ¬ v > lit_3_9 - threshold :=
    not_lt.mpr (binary32_below_3_85 v hf (by norm_num at h2 ⊢; linarith))
  unfold classify
  simp only [g, and_false, or_false]
  rw [e.1, e.2.2.1, lit_4_1_eq, lit_3_9_eq, lit_3_8_eq, lit_3_7_eq]
  have n1 : ¬ v > 2308094809027379 / 2 ^ 49 := by norm_num at h2 ⊢; linarith
  have n2 : ¬ v > 4559894621873766 / 2 ^ 50 := by norm_num at h2 ⊢; linarith
  have n3 : ¬ v > 8782019273372467 / 2 ^ 51 := by norm_num at h2 ⊢; linarith
  by_cases hv : v > 4278419646001971 / 2 ^ 50
  · simp [n1, n2, n3, hv]
  · by_cases hp : p = 2
    · have : v > 8444249299641958 / 2 ^ 51 := by norm_num at h1 ⊢; linarith
      simp [n1, n2, n3, hp, this]
    · have h3 : v > 4165829655317709 / 2 ^ 50 := by norm_num at h1 ⊢; linarith
      simp [n1, n2, n3, hv, hp, h3]

/-- The classification inside the band around 3.70 V, for a `float`. -/
theorem classify_band_3_7 (p b : Int) (v : ℚ) (hf : IsBinary32 v) (h1 : 37 / 10 - 1 / 20 < v)
    (h2 : v < 37 / 10 + 1 / 20) :
    classify p b v = if v > lit_3_7 ∨ p = 1 then 1 else 0 := by
  have e := hysteresis_edges_exact
  have g : ¬ v > lit_3_8 - threshold :=
    not_lt.mpr (binary32_below_3_75 v hf (by norm_num at h2 ⊢; linarith))
  unfold classify
  simp only [g, and_false, or_false]
  rw [e.1, e.2.1, e.2.2.2.1, lit_4_1_eq, lit_3_9_eq, lit_3_8_eq, lit_3_7_eq]
  have n1 : ¬ v > 2308094809027379 / 2 ^ 49 := by norm_num at h2 ⊢; linarith
  have n2 : ¬ v > 4559894621873766 / 2 ^ 50 := by norm_num at h2 ⊢; linarith
  have n3 : ¬ v > 8782019273372467 / 2 ^ 51 := by norm_num at h2 ⊢; linarith
  have n4 : ¬ v > 8669429281010483 / 2 ^ 51 := by norm_num at h2 ⊢; linarith
  have n5 : ¬ v > 4278419646001971 / 2 ^ 50 := by norm_num at h2 ⊢; linarith
  by_cases hv : v > 4165829655317709 / 2 ^ 50
  · simp [n1, n2, n3, n4, n5, hv]
  · by_cases hp : p = 1
    · have : v > 8219069318273434 / 2 ^ 51 := by norm_num at h1 ⊢; linarith
      simp [n1, n2, n3, n4, n5, hp, this]
    · have h3 : v ≤ 4165829655317709 / 2 ^ 50 := not_lt.mp hv
      simp [n1, n2, n3, n4, n5, hv, hp, h3]

end PocketMage

namespace PocketMage

/-! ## Battery state: successive calls -/

/-- Successive calls on inputs for which the classification is `U` when the voltage
exceeds `t` or the previous state is `U`, and `L` otherwise: the reported states are
some `L`, then some `U`; only `U` when the state was `U` before. -/
theorem runTicks_two_states (U L : Int) (t : ℚ) (hU0 : U ≠ 0) (ok : BattInput → Prop)
    (hch : ∀ i, ok i → isCharging i = false)
    (hcl : ∀ i, ok i → ∀ p b : Int,
      classify p b i.filteredVoltage = if i.filteredVoltage > t ∨ p = U then U else L)
    (inputs : List BattInput) :
    ∀ s : BattVars, BattInv s → (∀ i ∈ inputs, ok i) →
      (∃ n m, runTicks s inputs = List.replicate n L ++ List.replicate m U) ∧
      (s.battState = U → ∃ m, runTicks s inputs = List.replicate m U) := by
  induction inputs with
  | nil =>
    intro s _ _
    exact ⟨⟨0, 0, rfl⟩, fun _ => ⟨0, rfl⟩⟩
  | cons i rest ih =>
    intro s hs hok
    have hi := hok i (by simp)
    have hrest : ∀ j ∈ rest, ok j := fun j hj => hok j (by simp [hj])
    by_cases hsl : (updateBattState s i).deepSleep = true
    · simp only [runTicks, hsl, if_true]
      exact ⟨⟨0, 0, rfl⟩, fun _ => ⟨0, rfl⟩⟩
    · have hinv' := updateBattState_inv s i hs
      obtain ⟨⟨n, m, hnm⟩, hU⟩ := ih (updateBattState s i).vars hinv' hrest
      have hstate : (updateBattState s i).vars.battState =
          classify s.prevBattState s.battState i.filteredVoltage := by
        unfold updateBattState at hsl ⊢
        rw [hch i hi] at hsl ⊢
        simp only [Bool.false_eq_true, if_false] at hsl ⊢
        split
        · rename_i hlow
          rw [if_pos hlow] at hsl
          simp at hsl
        · exact commitBattState_battState _ _ _
      have hb' := hstate.trans (hcl i hi s.prevBattState s.battState)
      simp only [runTicks, hsl, if_false, Bool.false_eq_true]
      by_cases hc : i.filteredVoltage > t ∨ s.prevBattState = U
      · rw [if_pos hc] at hb'
        obtain ⟨m', hm'⟩ := hU hb'
        rw [hm', hb']
        exact ⟨⟨0, m' + 1, by simp [List.replicate_succ]⟩,
          fun _ => ⟨m' + 1, by simp [List.replicate_succ]⟩⟩
      · rw [if_neg hc] at hb'
        rw [hb']
        refine ⟨⟨n + 1, m, by rw [hnm]; simp [List.replicate_succ]⟩, ?_⟩
        intro hb
        exfalso
        apply hc
        right
        rcases hs with h | ⟨_, h0⟩
        · rw [h, hb]
        · exact absurd (hb.symm.trans h0) hU0

end PocketMage

namespace PocketMage

/-! ## Battery state: the claims -/

/-- C9: with the filtered voltage at 3.75 V, the previous confirmed state MEDIUM_LOW (2)
and no actively-charging code reported, `updateBattState` leaves `battState` at 2 and
does not report LOW (1); it goes to sleep only when the battery-low read says so. -/
theorem updateBattState_holds_medium_low (s : BattVars) (i : BattInput)
    (hb : s.battState = 2) (hp : s.prevBattState = 2) (hv : i.filteredVoltage = 15 / 4)
    (hc : isCharging i = false) :
    (updateBattState s i).vars.battState = 2 ∧ (updateBattState s i).vars.battState ≠ 1 ∧
      (updateBattState s i).deepSleep = (!i.batteryLowRet && i.low) := by
  have hcl : classify s.prevBattState s.battState i.filteredVoltage = 2 := by
    have e := hysteresis_edges_exact
    rw [hp, hv]
    unfold classify
    rw [e.1, e.2.1, e.2.2.1, lit_4_1_eq, lit_3_9_eq, lit_3_8_eq]
    norm_num
  have key : (updateBattState s i).vars.battState = 2 ∧
      (updateBattState s i).deepSleep = (!i.batteryLowRet && i.low) := by
    unfold updateBattState
    rw [hc]
    simp only [Bool.false_eq_true, if_false]
    split
    · rename_i hl
      exact ⟨hb, hl.symm⟩
    · rename_i hl
      refine ⟨?_, ?_⟩
      · rw [commitBattState_battState, hcl]
      · simpa using hl
  refine ⟨key.1, ?_, key.2⟩
  rw [key.1]
  decide

/-- Witness for `updateBattState_holds_medium_low`. -/
theorem updateBattState_holds_medium_low_witness :
    (updateBattState { battState := 2, prevBattState := 2, prevVoltage := 15 / 4 }
      (quietInput (15 / 4))).vars.battState = 2 ∧
    (updateBattState { battState := 2, prevBattState := 2, prevVoltage := 15 / 4 }
      (quietInput (15 / 4))).vars.battState ≠ 1 ∧
    (updateBattState { battState := 2, prevBattState := 2, prevVoltage := 15 / 4 }
      (quietInput (15 / 4))).deepSleep = false :=
  updateBattState_holds_medium_low
    { battState := 2, prevBattState := 2, prevVoltage := 15 / 4 } (quietInput (15 / 4))
    rfl rfl rfl rfl

/-- C10: for every threshold `T` among 4.10, 3.90, 3.80 and 3.70, every state of the
variables the program can reach, and every sequence of `float` filtered voltages
strictly between `T - 0.05` and `T + 0.05` with no actively-charging code reported,
the battery states reported by the successive calls of `updateBattState` are some
number of one state followed by some number of another: the state changes at most
once after the first call and never returns to a state it has left. -/
theorem runTicks_no_chatter (T : ℚ)
    (hT : T = 41 / 10 ∨ T = 39 / 10 ∨ T = 38 / 10 ∨ T = 37 / 10)
    (s : BattVars) (hs : BattReachable s) (inputs : List BattInput)
    (hin : ∀ i ∈ inputs, IsBinary32 i.filteredVoltage ∧ T - 1 / 20 < i.filteredVoltage ∧
      i.filteredVoltage < T + 1 / 20 ∧ isCharging i = false) :
    ∃ (a b : Int) (n m : Nat), runTicks s inputs = List.replicate n a ++ List.replicate m b := by
  have hinv := battInv_of_reachable s hs
  rcases hT with rfl | rfl | rfl | rfl
  · obtain ⟨⟨n, m, h⟩, _⟩ := runTicks_two_states 4 3 lit_4_1 (by decide)
      (fun i => IsBinary32 i.filteredVoltage ∧ 41 / 10 - 1 / 20 < i.filteredVoltage ∧
        i.filteredVoltage < 41 / 10 + 1 / 20 ∧ isCharging i = false)
      (fun i hi => hi.2.2.2)
      (fun i hi p b => classify_band_4_1 p b _ hi.2.1 hi.2.2.1) inputs s hinv hin
    exact ⟨3, 4, n, m, h⟩
  · obtain ⟨⟨n, m, h⟩, _⟩ := runTicks_two_states 3 2 lit_3_9 (by decide)
      (fun i => IsBinary32 i.filteredVoltage ∧ 39 / 10 - 1 / 20 < i.filteredVoltage ∧
        i.filteredVoltage < 39 / 10 + 1 / 20 ∧ isCharging i = false)
      (fun i hi => hi.2.2.2)
      (fun i hi p b => classify_band_3_9 p b _ hi.2.1 hi.2.2.1) inputs s hinv hin
    exact ⟨2, 3, n, m, h⟩
  · obtain ⟨⟨n, m, h⟩, _⟩ := runTicks_two_states 2 1 lit_3_8 (by decide)
      (fun i => IsBinary32 i.filteredVoltage ∧ 38 / 10 - 1 / 20 < i.filteredVoltage ∧
        i.filteredVoltage < 38 / 10 + 1 / 20 ∧ isCharging i = false)
      (fun i hi => hi.2.2.2)
      (fun i hi p b => classify_band_3_8 p b _ hi.1 hi.2.1 hi.2.2.1) inputs s hinv hin
    exact ⟨1, 2, n, m, h⟩
  · obtain ⟨⟨n, m, h⟩, _⟩ := runTicks_two_states 1 0 lit_3_7 (by decide)
      (fun i => IsBinary32 i.filteredVoltage ∧ 37 / 10 - 1 / 20 < i.filteredVoltage ∧
        i.filteredVoltage < 37 / 10 + 1 / 20 ∧ isCharging i = false)
      (fun i hi => hi.2.2.2)
      (fun i hi p b => classify_band_3_7 p b _ hi.1 hi.2.1 hi.2.2.1) inputs s hinv hin
    exact ⟨0, 1, n, m, h⟩

theorem isBinary32_121_32 : IsBinary32 (121 / 32) :=
  ⟨121, -5, by norm_num, by norm_num, by norm_num, by norm_num⟩

theorem isBinary32_123_32 : IsBinary32 (123 / 32) :=
  ⟨123, -5, by norm_num, by norm_num, by norm_num, by norm_num⟩

/-- Witness for `runTicks_no_chatter`: from start-up, the voltages 3.78125, 3.84375 and
3.78125 around the threshold 3.80 are reported as LOW, MEDIUM_LOW, MEDIUM_LOW. -/
theorem runTicks_no_chatter_witness :
    BattReachable initBattVars ∧
    (∀ i ∈ [quietInput (121 / 32), quietInput (123 / 32), quietInput (121 / 32)],
      IsBinary32 i.filteredVoltage ∧ (38 / 10 : ℚ) - 1 / 20 < i.filteredVoltage ∧
      i.filteredVoltage < 38 / 10 + 1 / 20 ∧ isCharging i = false) ∧
    (∃ (a b : Int) (n m : Nat),
      runTicks initBattVars
        [quietInput (121 / 32), quietInput (123 / 32), quietInput (121 / 32)] =
        List.replicate n a ++ List.replicate m b) ∧
    runTicks initBattVars
      [quietInput (121 / 32), quietInput (123 / 32), quietInput (121 / 32)] = [1, 2, 2] := by
  have hin : ∀ i ∈ [quietInput (121 / 32), quietInput (123 / 32), quietInput (121 / 32)],
      IsBinary32 i.filteredVoltage ∧ (38 / 10 : ℚ) - 1 / 20 < i.filteredVoltage ∧
      i.filteredVoltage < 38 / 10 + 1 / 20 ∧ isCharging i = false := by
    intro i hi
    simp only [List.mem_cons, List.mem_singleton, List.not_mem_nil, or_false] at hi
    rcases hi with rfl | rfl | rfl
    · exact ⟨isBinary32_121_32, by norm_num [quietInput], by norm_num [quietInput], rfl⟩
    · exact ⟨isBinary32_123_32, by norm_num [quietInput], by norm_num [quietInput], rfl⟩
    · exact ⟨isBinary32_121_32, by norm_num [quietInput], by norm_num [quietInput], rfl⟩
  refine ⟨BattReachable.init, hin,
    runTicks_no_chatter (38 / 10) (Or.inr (Or.inr (Or.inl rfl))) initBattVars
      BattReachable.init _ hin, ?_⟩
  simp only [runTicks, updateBattState, quietInput, isCharging, classify, commitBattState,
    initBattVars, lit_4_1_eq, lit_3_9_eq, lit_3_8_eq, lit_3_7_eq, threshold_eq]
  norm_num

end PocketMage

namespace PocketMage

/-! ## Battery state: the low-battery cutoff -/

/-- C12, as stated, fails: on a store that holds the mode `TXT` and no value for
`HOME_ON_BOOT`, the only boot option, `loadState(true)` reads the option as `false`
and restores `TXT`; it does not force Home. -/
theorem loadState_default_restores :
    (loadState switchOrderCodes { emptyPrefs with CurrentAppState := some 1 } true 0).settings.HOME_ON_BOOT
      = false ∧
    (loadState switchOrderCodes { emptyPrefs with CurrentAppState := some 1 } true 0).CurrentAppState
      = switchOrderCodes.TXT ∧
    (loadState switchOrderCodes { emptyPrefs with CurrentAppState := some 1 } true 0).CurrentAppState
      ≠ switchOrderCodes.HOME ∧
    (loadState switchOrderCodes { emptyPrefs with CurrentAppState := some 1 } true 0).initializer
      = some Initializer.TXT_INIT := by
  decide

/-- C12, amended: on cold start (`loadState` with `changeState = true`) the mode is forced
to Home, for every stored mode, when the stored option `HOME_ON_BOOT` is true; when it
is false, which it is read as when the store holds no value for it, the stored
`CurrentAppState` is restored, Home when the store holds none. -/
theorem loadState_boot_decision (codes : AppStateCodes) (prefs : Prefs) (current : Int) :
    (prefs.HOME_ON_BOOT = some true →
      (loadState codes prefs true current).CurrentAppState = codes.HOME ∧
      (loadState codes prefs true current).initializer = some Initializer.HOME_INIT) ∧
    ((prefs.HOME_ON_BOOT = some false ∨ prefs.HOME_ON_BOOT = none) →
      (∀ stored, prefs.CurrentAppState = some stored →
        (loadState codes prefs true current).CurrentAppState = stored) ∧
      (prefs.CurrentAppState = none →
        (loadState codes prefs true current).CurrentAppState = codes.HOME)) := by
  refine ⟨?_, ?_⟩
  · intro h
    simp [loadState, h, bootInitializer]
  · intro h
    rcases h with h | h
    · refine ⟨?_, ?_⟩
      · intro stored hs
        simp [loadState, h, hs]
      · intro hs
        simp [loadState, h, hs]
    · refine ⟨?_, ?_⟩
      · intro stored hs
        simp [loadState, h, hs]
      · intro hs
        simp [loadState, h, hs]

end PocketMage

namespace PocketMage

/-! ## Idle timeout: cancelling in the grace window -/

theorem graceLoop_cancelled (i : Int) (pre post : List Poll) (p : Poll) (j : Int)
    (hj : j - i ≤ 4000) (hpre : ∀ q ∈ pre, q.millis - i ≤ 4000) (hp : p.kbIrqLow = true) :
    ∃ q ∈ pre ++ [p], q.kbIrqLow = true ∧
      graceLoop i j (pre ++ p :: post) = GraceResult.cancelled q.millisAfter := by
  induction pre generalizing j with
  | nil =>
    refine ⟨p, by simp, hp, ?_⟩
    simp [graceLoop, hj, hp]
  | cons q pre ih =>
    by_cases hq : q.kbIrqLow = true
    · refine ⟨q, by simp, hq, ?_⟩
      simp [graceLoop, hj, hq]
    · obtain ⟨r, hr, hrl, hres⟩ := ih q.millis (hpre q (by simp))
        (fun x hx => hpre x (by simp [hx]))
      refine ⟨r, by simp only [List.cons_append, List.mem_cons]; exact Or.inr hr, hrl, ?_⟩
      simp only [List.cons_append, graceLoop, hj, if_true, hq, Bool.false_eq_true, if_false]
      exact hres

/-- C13: when timeout enforcement is enabled and the time since the last input is at least
`TIMEOUT * 1000` ms, `checkTimeout` enters the grace loop; if one of its polls, taken
within 4000 ms of the start of the loop, sees the keyboard interrupt, the call ends as
cancelled: the previous input time is the reading of `millis()` taken at the poll that
saw an interrupt, and nothing was saved, no session state was written and `deepSleep`
was not entered. (The clock does not run backwards: no earlier reading is later than
that of the poll.) -/
theorem checkTimeout_grace_cancel (t : TimeoutInput) (pre post : List Poll) (p : Poll)
    (hen : t.disableTimeout = false) (hel : t.timeDiff ≥ t.TIMEOUT * 1000)
    (hpolls : t.polls = pre ++ p :: post) (hp : p.kbIrqLow = true)
    (hwin : p.millis - t.millisI ≤ 4000) (hj : t.millisJ ≤ p.millis)
    (hmono : ∀ q ∈ pre, q.millis ≤ p.millis) :
    (checkTimeout t).outcome = TimeoutOutcome.cancelled ∧
    (checkTimeout t).saved = false ∧ (checkTimeout t).prefsWritten = false ∧
    (checkTimeout t).deepSleep = false ∧
    ∃ q ∈ pre ++ [p], q.kbIrqLow = true ∧ (checkTimeout t).prevTimeMillis = q.millisAfter := by
  obtain ⟨q, hq, hql, hres⟩ := graceLoop_cancelled t.millisI pre post p t.millisJ
    (by omega) (fun x hx => by have := hmono x hx; omega) hp
  have hc : checkTimeout t =
      { outcome := TimeoutOutcome.cancelled, prevTimeMillis := q.millisAfter,
        disableTimeout := t.disableTimeout, saved := false, prefsWritten := false,
        deepSleep := false } := by
    unfold checkTimeout
    rw [hen, hpolls, hres]
    simp [hel]
  rw [hc]
  exact ⟨rfl, rfl, rfl, rfl, q, hq, hql, rfl⟩

/-- Witness for `checkTimeout_grace_cancel`, the scenario of C13: timeout 5 s, the grace
window entered after 5 s without input, a key event at the poll 2 s into the window;
the call is cancelled and the previous input time is the reading 7500 taken then. -/
theorem checkTimeout_grace_cancel_witness :
    graceScenario.disableTimeout = false ∧
    graceScenario.timeDiff ≥ graceScenario.TIMEOUT * 1000 ∧
    (7000 : Int) - graceScenario.millisI ≤ 4000 ∧
    ((checkTimeout graceScenario).outcome = TimeoutOutcome.cancelled ∧
      (checkTimeout graceScenario).saved = false ∧
      (checkTimeout graceScenario).prefsWritten = false ∧
      (checkTimeout graceScenario).deepSleep = false ∧
      ∃ q ∈ [({ millis := 5500, kbIrqLow := false, millisAfter := 6000 } : Poll),
              { millis := 6000, kbIrqLow := false, millisAfter := 6500 },
              { millis := 6500, kbIrqLow := false, millisAfter := 7000 }] ++
            [({ millis := 7000, kbIrqLow := true, millisAfter := 7500 } : Poll)],
        q.kbIrqLow = true ∧ (checkTimeout graceScenario).prevTimeMillis = q.millisAfter) ∧
    (checkTimeout graceScenario).prevTimeMillis = 7500 :=
  ⟨rfl, by decide, by decide,
   checkTimeout_grace_cancel graceScenario
     [{ millis := 5500, kbIrqLow := false, millisAfter := 6000 },
      { millis := 6000, kbIrqLow := false, millisAfter := 6500 },
      { millis := 6500, kbIrqLow := false, millisAfter := 7000 }]
     [{ millis := 7500, kbIrqLow := false, millisAfter := 8000 }]
     { millis := 7000, kbIrqLow := true, millisAfter := 7500 }
     rfl (by decide) rfl rfl (by decide) (by decide) (by decide),
   by decide⟩

end PocketMage

namespace PocketMage

/-! ## File operations: the paths handed to the index -/

theorem withLeadingSlash_head (name : List Char) : (withLeadingSlash name).head? = some '/' := by
  unfold withLeadingSlash
  by_cases h : startsWith name ['/'] = true
  · obtain ⟨rest, hr⟩ := (startsWith_iff _ _).mp h
    rw [if_neg (by simp [h]), hr]
    rfl
  · rw [if_pos (by simpa using h)]
    rfl

/-- The part of C14 that holds: `saveFile`, `delFile`, `renFile` and `copyFile` hand only
paths that begin with `/` to the index functions. -/
theorem canonical_paths_of_four (noSD : Bool) (a b : List Char) :
    (∀ c ∈ saveFile noSD a, ∀ p ∈ c.paths, p.head? = some '/') ∧
    (∀ c ∈ delFile noSD a, ∀ p ∈ c.paths, p.head? = some '/') ∧
    (∀ c ∈ renFile noSD a b, ∀ p ∈ c.paths, p.head? = some '/') ∧
    (∀ c ∈ copyFile noSD a b, ∀ p ∈ c.paths, p.head? = some '/') := by
  cases noSD <;>
    simp [saveFile, delFile, renFile, copyFile, MetaCall.paths, withLeadingSlash_head]

/-- C14, evaluated where it fails: `appendToFile("notes.txt", "x")` hands the path
`notes.txt`, which does not begin with `/`, to `writeMetadata`, whereas `saveFile` with
the same editing path hands it `/notes.txt`. -/
theorem appendToFile_path_not_canonical :
    appendToFile false "notes.txt".toList "x".toList =
      some (MetaCall.writeMetadata "notes.txt".toList) ∧
    "notes.txt".toList.head? ≠ some '/' ∧
    saveFile false "notes.txt".toList = some (MetaCall.writeMetadata "/notes.txt".toList) := by
  decide

end PocketMage

namespace PocketMage

/-! ## Metadata index: delete, then write -/

end PocketMage

namespace PocketMage

end PocketMage

namespace PocketMage

/-! ## Text buffer: the word-wrap scenario -/

theorem stvStep_append (width : List Char → Nat) (dispW : Int) (acc : List (List Char))
    (cur : List Char) (c : Char) (hc : c ≠ '\n') (h : (width cur : Int) < dispW - 5) :
    stvStep width dispW { allLines := acc, currentLine := cur } c =
      { allLines := acc, currentLine := cur ++ [c] } := by
  have hno : ¬ ((c = '\n' ∨ dispW - 5 ≤ (width cur : Int)) ∧ cur ≠ []) := by
    rintro ⟨h1 | h1, _⟩
    · exact hc h1
    · omega
  simp only [stvStep]
  rw [if_neg hno, if_pos hc]

theorem stvStep_flush (width : List Char → Nat) (dispW : Int) (acc : List (List Char))
    (cur : List Char) (c : Char) (hc : c ≠ '\n') (h : dispW - 5 ≤ (width cur : Int))
    (hne : cur ≠ []) :
    stvStep width dispW { allLines := acc, currentLine := cur } c =
      { allLines := (flushLine { allLines := acc, currentLine := cur }).allLines,
        currentLine := (flushLine { allLines := acc, currentLine := cur }).currentLine ++ [c] } := by
  have hyes : (c = '\n' ∨ dispW - 5 ≤ (width cur : Int)) ∧ cur ≠ [] := ⟨Or.inr h, hne⟩
  simp only [stvStep]
  rw [if_pos hyes, if_pos hc]

/-- The scan of `hello world this `, when `hello world` and `this` are narrower than
`dispW - 5` and `hello world this` is not: one line has been flushed, `hello world`
with its space if that is already too wide and without it otherwise, and the
accumulator holds `this `. -/
theorem wrap_scenario_scan (width : List Char → Nat) (dispW : Int) (hw : MonotoneWidth width)
    (h11 : (width "hello world".toList : Int) < dispW - 5)
    (h16 : dispW - 5 ≤ (width "hello world this".toList : Int))
    (hthis : (width "this".toList : Int) < dispW - 5) :
    "hello world this ".toList.foldl (stvStep width dispW) { allLines := [], currentLine := [] } =
      { allLines := [if (width "hello world ".toList : Int) < dispW - 5
          then "hello world".toList else "hello world ".toList],
        currentLine := "this ".toList } := by
  have mono : ∀ p q : List Char, (width p : Int) ≤ (width (p ++ q) : Int) := fun p q => by
    exact_mod_cast width_prefix_le hw p q
  have ht : (width "t".toList : Int) < dispW - 5 := by
    have := mono "t".toList "his".toList
    have e : "t".toList ++ "his".toList = "this".toList := by decide
    rw [e] at this; omega
  have hth : (width "th".toList : Int) < dispW - 5 := by
    have := mono "th".toList "is".toList
    have e : "th".toList ++ "is".toList = "this".toList := by decide
    rw [e] at this; omega
  have hthi : (width "thi".toList : Int) < dispW - 5 := by
    have := mono "thi".toList "s".toList
    have e : "thi".toList ++ "s".toList = "this".toList := by decide
    rw [e] at this; omega
  have htext : "hello world this ".toList =
      "hello world".toList ++ [' ', 't', 'h', 'i', 's', ' '] := by decide
  rw [htext, List.foldl_append,
    foldl_stvStep_no_break hw [] [] "hello world".toList (by decide) (by simpa using h11)]
  simp only [List.nil_append, List.foldl_cons, List.foldl_nil]
  rw [stvStep_append width dispW [] "hello world".toList ' ' (by decide) h11]
  have e12 : "hello world".toList ++ [' '] = "hello world ".toList := by decide
  rw [e12]
  by_cases c12 : (width "hello world ".toList : Int) < dispW - 5
  · rw [if_pos c12, stvStep_append width dispW [] _ 't' (by decide) c12]
    have e13 : "hello world ".toList ++ ['t'] = "hello world t".toList := by decide
    rw [e13]
    by_cases c13 : (width "hello world t".toList : Int) < dispW - 5
    · rw [stvStep_append width dispW [] _ 'h' (by decide) c13]
      have e14 : "hello world t".toList ++ ['h'] = "hello world th".toList := by decide
      rw [e14]
      by_cases c14 : (width "hello world th".toList : Int) < dispW - 5
      · rw [stvStep_append width dispW [] _ 'i' (by decide) c14]
        have e15 : "hello world th".toList ++ ['i'] = "hello world thi".toList := by decide
        rw [e15]
        by_cases c15 : (width "hello world thi".toList : Int) < dispW - 5
        · rw [stvStep_append width dispW [] _ 's' (by decide) c15]
          have e16 : "hello world thi".toList ++ ['s'] = "hello world this".toList := by decide
          rw [e16, stvStep_flush width dispW [] _ ' ' (by decide) h16 (by decide)]
          have f : flushLine { allLines := [], currentLine := "hello world this".toList } =
              { allLines := ["hello world".toList], currentLine := "this".toList } := by decide
          rw [f]
          rfl
        · rw [stvStep_flush width dispW [] _ 's' (by decide) (by omega) (by decide)]
          have f : flushLine { allLines := [], currentLine := "hello world thi".toList } =
              { allLines := ["hello world".toList], currentLine := "thi".toList } := by decide
          rw [f]
          have e : "thi".toList ++ ['s'] = "this".toList := by decide
          simp only [e]
          rw [stvStep_append width dispW _ _ ' ' (by decide) hthis]
          rfl
      · rw [stvStep_flush width dispW [] _ 'i' (by decide) (by omega) (by decide)]
        have f : flushLine { allLines := [], currentLine := "hello world th".toList } =
            { allLines := ["hello world".toList], currentLine := "th".toList } := by decide
        rw [f]
        have e : "th".toList ++ ['i'] = "thi".toList := by decide
        simp only [e]
        rw [stvStep_append width dispW _ _ 's' (by decide) hthi]
        have e2 : "thi".toList ++ ['s'] = "this".toList := by decide
        rw [e2, stvStep_append width dispW _ _ ' ' (by decide) hthis]
        rfl
    · rw [stvStep_flush width dispW [] _ 'h' (by decide) (by omega) (by decide)]
      have f : flushLine { allLines := [], currentLine := "hello world t".toList } =
          { allLines := ["hello world".toList], currentLine := "t".toList } := by decide
      rw [f]
      have e : "t".toList ++ ['h'] = "th".toList := by decide
      simp only [e]
      rw [stvStep_append width dispW _ _ 'i' (by decide) hth]
      have e1 : "th".toList ++ ['i'] = "thi".toList := by decide
      rw [e1, stvStep_append width dispW _ _ 's' (by decide) hthi]
      have e2 : "thi".toList ++ ['s'] = "this".toList := by decide
      rw [e2, stvStep_append width dispW _ _ ' ' (by decide) hthis]
      rfl
  · rw [if_neg c12, stvStep_flush width dispW [] _ 't' (by decide) (by omega) (by decide)]
    have f : flushLine { allLines := [], currentLine := "hello world ".toList } =
        { allLines := ["hello world ".toList], currentLine := [] } := by decide
    rw [f]
    have e0 : ([] : List Char) ++ ['t'] = "t".toList := by decide
    simp only [e0]
    rw [stvStep_append width dispW _ _ 'h' (by decide) ht]
    have e : "t".toList ++ ['h'] = "th".toList := by decide
    rw [e, stvStep_append width dispW _ _ 'i' (by decide) hth]
    have e1 : "th".toList ++ ['i'] = "thi".toList := by decide
    rw [e1, stvStep_append width dispW _ _ 's' (by decide) hthi]
    have e2 : "thi".toList ++ ['s'] = "this".toList := by decide
    rw [e2, stvStep_append width dispW _ _ ' ' (by decide) hthis]
    rfl

end PocketMage

namespace PocketMage

theorem flushLine_secondLine (first word : List Char) (s : TxtState) (hword : ' ' ∉ word)
    (h1 : s.allLines = [first]) (h2 : word <+: s.currentLine) :
    ∃ second, (flushLine s).allLines = [first, second] ∧ word <+: second := by
  unfold flushLine
  split
  · exact ⟨s.currentLine, by simp [h1], h2⟩
  · cases hli : lastIndexOf ' ' s.currentLine with
    | none => exact ⟨s.currentLine, by simp [h1], h2⟩
    | some i =>
      obtain ⟨hsplit, _⟩ := lastIndexOf_some hli
      refine ⟨s.currentLine.take i, by simp [h1, substring_zero], ?_⟩
      have hpre : s.currentLine.take i <+: s.currentLine := List.take_prefix _ _
      by_cases hlen : word.length ≤ (s.currentLine.take i).length
      · exact List.prefix_of_prefix_length_le h2 hpre hlen
      · exfalso
        have hpre2 : s.currentLine.take i ++ [' '] <+: s.currentLine :=
          ⟨s.currentLine.drop (i + 1), by
            rw [List.append_assoc, List.singleton_append]; exact hsplit.symm⟩
        have hle : (s.currentLine.take i ++ [' ']).length ≤ word.length := by
          simp only [List.length_append, List.length_singleton]
          omega
        obtain ⟨t, ht⟩ := List.prefix_of_prefix_length_le hpre2 h2 hle
        apply hword
        rw [← ht]
        simp

theorem stvStep_secondLine (width : List Char → Nat) (dispW : Int) (first word : List Char)
    (hword : ' ' ∉ word) (s : TxtState) (c : Char) (h : SecondLineStarts first word s) :
    SecondLineStarts first word (stvStep width dispW s c) := by
  rcases h with ⟨h1, h2⟩ | ⟨second, more, h1, h2⟩
  · simp only [stvStep]
    by_cases hb : (c = '\n' ∨ dispW - 5 ≤ (width s.currentLine : Int)) ∧ s.currentLine ≠ []
    · obtain ⟨second, ha, hb2⟩ := flushLine_secondLine first word s hword h1 h2
      rw [if_pos hb]
      by_cases hc : c = '\n'
      · rw [if_neg (not_not.mpr hc)]
        exact Or.inr ⟨second, [], ha, hb2⟩
      · rw [if_pos hc]
        exact Or.inr ⟨second, [], ha, hb2⟩
    · rw [if_neg hb]
      by_cases hc : c = '\n'
      · rw [if_neg (not_not.mpr hc)]
        exact Or.inl ⟨h1, h2⟩
      · rw [if_pos hc]
        exact Or.inl ⟨h1, h2.trans (List.prefix_append _ _)⟩
  · obtain ⟨m, hm⟩ := stvStep_allLines_prefix width dispW s c
    exact Or.inr ⟨second, more ++ m, by rw [hm, h1]; simp, h2⟩

theorem foldl_stvStep_secondLine (width : List Char → Nat) (dispW : Int)
    (first word : List Char) (hword : ' ' ∉ word) (text : List Char) (s : TxtState)
    (h : SecondLineStarts first word s) :
    SecondLineStarts first word (text.foldl (stvStep width dispW) s) := by
  induction text generalizing s with
  | nil => exact h
  | cons c text ih => exact ih _ (stvStep_secondLine width dispW first word hword s c h)

set_option maxRecDepth 20000 in
/-- C16, as stated, fails: with a 21-pixel fixed-width measure on a 320-pixel display
`hello world` (231 pixels) fits and `hello world this` (336 pixels) does not, and
`stringToVector` of `hello world this is a test` has the first line `hello world`,
without the space: the break is forced only when `hello world thi` has reached 315
pixels, and the cut at the last space drops that space. -/
theorem wrap_scenario_drops_space :
    MonotoneWidth (fun s : List Char => 21 * s.length) ∧
    ((21 * "hello world".toList.length : Nat) : Int) < 320 - 5 ∧
    (320 : Int) < ((21 * "hello world this".toList.length : Nat) : Int) ∧
    stringToVector (fun s => 21 * s.length) 320 "hello world this is a test".toList
      = ["hello world".toList, "this is a test".toList] ∧
    (stringToVector (fun s => 21 * s.length) 320 "hello world this is a test".toList).head?
      ≠ some "hello world ".toList := by
  refine ⟨fun s c => by simp, by decide, by decide, by decide, by decide⟩

/-- C16, amended: for the input `hello world this is a test` and every width limit (with a
width measure monotone under appending characters) under which `hello world` and
`this` are narrower than `display width - 5` and `hello world this` is not,
`stringToVector` produces a first line equal to `hello world ` (the space retained) when
`hello world ` is already not narrower than `display width - 5`, and equal to
`hello world` (the space dropped) otherwise, and a second line that begins with the
whole word `this`. -/
theorem wrap_scenario (width : List Char → Nat) (dispW : Int) (hw : MonotoneWidth width)
    (h11 : (width "hello world".toList : Int) < dispW - 5)
    (h16 : dispW - 5 ≤ (width "hello world this".toList : Int))
    (hthis : (width "this".toList : Int) < dispW - 5) :
    ∃ second rest,
      stringToVector width dispW "hello world this is a test".toList =
        (if (width "hello world ".toList : Int) < dispW - 5
          then "hello world".toList else "hello world ".toList) :: second :: rest ∧
      "this".toList <+: second := by
  have htext : "hello world this is a test".toList =
      "hello world this ".toList ++ "is a test".toList := by decide
  have hinv := foldl_stvStep_secondLine width dispW
    (if (width "hello world ".toList : Int) < dispW - 5
      then "hello world".toList else "hello world ".toList)
    "this".toList (by decide) "is a test".toList
    { allLines := [if (width "hello world ".toList : Int) < dispW - 5
        then "hello world".toList else "hello world ".toList],
      currentLine := "this ".toList }
    (Or.inl ⟨rfl, ⟨[' '], rfl⟩⟩)
  unfold stringToVector
  rw [htext, List.foldl_append, wrap_scenario_scan width dispW hw h11 h16 hthis]
  generalize List.foldl (stvStep width dispW) _ "is a test".toList = st at hinv ⊢
  rcases hinv with ⟨h1, h2⟩ | ⟨second, more, h1, h2⟩
  · have hne : st.currentLine ≠ [] := by
      intro hnil
      rw [hnil] at h2
      have := List.prefix_nil.mp h2
      exact absurd this (by decide)
    refine ⟨st.currentLine, [], ?_, h2⟩
    simp [hne, h1]
  · by_cases hne : st.currentLine ≠ []
    · exact ⟨second, more ++ [st.currentLine], by simp [hne, h1], h2⟩
    · exact ⟨second, more, by simp [hne, h1], h2⟩

theorem wideT_monotone : MonotoneWidth wideT := by
  intro s c
  cases s with
  | nil =>
    simp only [wideT, List.head?_nil, reduceCtorEq, if_false, List.length_nil, Nat.mul_zero]
    exact Nat.zero_le _
  | cons a s =>
    simp only [wideT, List.cons_append, List.head?_cons, List.length_cons, List.length_append,
      List.length_singleton]
    split <;> omega

set_option maxRecDepth 20000 in
/-- The condition on `this` in the amended C16 cannot be dropped: under the measure `wideT`
on a display 120 wide, `hello world` fits and `hello world this` does not, but the second
line is the single letter `t`. -/
theorem wrap_scenario_needs_word_to_fit :
    (wideT "hello world".toList : Int) < 120 - 5 ∧
    (120 : Int) - 5 ≤ (wideT "hello world this".toList : Int) ∧
    (stringToVector wideT 120 "hello world this is a test".toList).take 2
      = ["hello world ".toList, "t".toList] := by
  refine ⟨by decide, by decide, by decide⟩

set_option maxRecDepth 20000 in
/-- Witness for `wrap_scenario`: a 21-pixel fixed-width measure on a display 250 pixels
wide, where `hello world ` is already too wide and the space is retained. -/
theorem wrap_scenario_witness :
    MonotoneWidth (fun s : List Char => 21 * s.length) ∧
    ((21 * "hello world".toList.length : Nat) : Int) < 250 - 5 ∧
    (250 : Int) - 5 ≤ ((21 * "hello world this".toList.length : Nat) : Int) ∧
    ((21 * "this".toList.length : Nat) : Int) < 250 - 5 ∧
    (∃ second rest,
      stringToVector (fun s => 21 * s.length) 250 "hello world this is a test".toList =
        (if ((21 * "hello world ".toList.length : Nat) : Int) < 250 - 5
          then "hello world".toList else "hello world ".toList) :: second :: rest ∧
      "this".toList <+: second) ∧
    stringToVector (fun s => 21 * s.length) 250 "hello world this is a test".toList
      = ["hello world ".toList, "this is a".toList, "test".toList] :=
  ⟨fun s c => by simp, by decide, by decide, by decide,
   wrap_scenario (fun s => 21 * s.length) 250 (fun s c => by simp) (by decide) (by decide)
     (by decide),
   by decide⟩

end PocketMage

namespace PocketMage

/-! ## Metadata index: the rewritten file, read again -/

theorem no_line_of_form (path : List Char) (lines : List (List Char))
    (h : lines.all (fun l => !startsWith l (path ++ ['|'])) = true) :
    ∀ rest, path ++ '|' :: rest ∉ lines := by
  intro rest hmem
  have h1 := List.all_eq_true.mp h _ hmem
  have h2 : startsWith (path ++ '|' :: rest) (path ++ ['|']) = true :=
    (startsWith_iff _ _).mpr ⟨rest, by simp⟩
  simp [h2] at h1

end PocketMage

namespace PocketMage

/-! ## Metadata index: `writeMetadata` for a path that has no record -/

set_option maxRecDepth 20000 in
/-- C4, as stated, fails for a path that holds a line feed: on an empty index, which has
no line for the path `a⏎b`, `writeMetadata` writes the new entry across two lines of the
index, `a` and `b|20240102-0304|2 Bytes|2 Char`; the index gains two lines, and none of
them is the line `path|20240102-0304|2 Bytes|2 Char`. -/
theorem writeMetadata_newline_path_adds_two_lines :
    (∀ rest, "a\nb".toList ++ '|' :: rest ∉ indexLines (some [])) ∧
    writeMetadata "a\nb".toList (some { sizeBytes := 2, text := "hi".toList })
      { year := 2024, month := 1, day := 2, hour := 3, minute := 4, second := 0 }
      (some []) true
      = some "a\nb|20240102-0304|2 Bytes|2 Char\n".toList ∧
    readLines "a\nb|20240102-0304|2 Bytes|2 Char\n".toList
      = ["a".toList, "b|20240102-0304|2 Bytes|2 Char".toList] ∧
    "a\nb|20240102-0304|2 Bytes|2 Char".toList ∉
      readLines "a\nb|20240102-0304|2 Bytes|2 Char\n".toList := by
  refine ⟨fun rest h => by simp [indexLines, readLines, readLinesFrom] at h,
    by decide, by decide, by decide⟩

/-- C4, amended: for every path that holds no line feed, every document and clock reading,
`writeMetadata` on an index with no line of the form `path|...` leaves an index whose
lines, read again, are the lines read before that are longer than one character, in
their order and unchanged, followed by exactly the one line
`path|YYYYMMDD-HHMM|<sizeBytes> Bytes|<charCount> Char`, its date and time fields
zero-padded and `charCount` the number of characters of the document with code
32..126; in the file each line is followed by a line feed. -/
theorem writeMetadata_appends_record (path : List Char) (doc : Document) (now : DateTime)
    (metaFile : Option (List Char)) (hnl : '\n' ∉ path)
    (hno : ∀ rest, path ++ '|' :: rest ∉ indexLines metaFile) :
    ∃ result,
      writeMetadata path (some doc) now metaFile true = some result ∧
      readLines result =
        (indexLines metaFile).filter (fun l => l.length > 1) ++
          [path ++ ['|'] ++
            (zeroPad 4 now.year ++ zeroPad 2 now.month ++ zeroPad 2 now.day ++ ['-'] ++
              zeroPad 2 now.hour ++ zeroPad 2 now.minute) ++ ['|'] ++
            (decimal doc.sizeBytes ++ " Bytes".toList) ++ ['|'] ++
            (decimal (doc.text.countP (fun c => 32 ≤ c.toNat ∧ c.toNat ≤ 126)) ++
              " Char".toList)] ∧
      result = joinLines (readLines result) := by
  have hentry : path ++ ['|'] ++
      (zeroPad 4 now.year ++ zeroPad 2 now.month ++ zeroPad 2 now.day ++ ['-'] ++
        zeroPad 2 now.hour ++ zeroPad 2 now.minute) ++ ['|'] ++
      (decimal doc.sizeBytes ++ " Bytes".toList) ++ ['|'] ++
      (decimal (doc.text.countP (fun c => 32 ≤ c.toNat ∧ c.toNat ≤ 126)) ++
        " Char".toList) = newEntry path doc now := by
    rw [← countVisibleChars_eq_countP]
    rfl
  have hlines : ∀ l ∈ (indexLines metaFile).filter (fun l => l.length > 1) ++
      [newEntry path doc now], '\n' ∉ l := by
    intro l hl
    rcases List.mem_append.mp hl with h | h
    · exact indexLines_no_newline metaFile l (List.mem_filter.mp h).1
    · rw [List.mem_singleton.mp h]; exact newEntry_no_newline path doc now hnl
  have hread := readLines_joinLines _ hlines
  refine ⟨_, writeMetadata_of_no_record path doc now metaFile hno, ?_, ?_⟩
  · rw [hentry]; exact hread
  · rw [hentry, hread]

set_option maxRecDepth 40000 in
/-- Witness for `writeMetadata_appends_record`: the path `/notes.txt`, a 120-byte document
with 100 visible characters and the time 2024-01-02 03:04, first on an index that holds
a record for `/a.txt`, a blank line, a line of one character and a last record for
`/b.txt` without its line feed, then on the empty index, the scenario of C4, where the
index becomes the single line `/notes.txt|20240102-0304|120 Bytes|100 Char`. -/
theorem writeMetadata_appends_record_witness :
    '\n' ∉ "/notes.txt".toList ∧
    (∀ rest, "/notes.txt".toList ++ '|' :: rest ∉ indexLines
      (some "/a.txt|20240101-0000|1 Bytes|1 Char\n\nx\n/b.txt|20231231-2359|7 Bytes|5 Char".toList)) ∧
    (∃ result,
      writeMetadata "/notes.txt".toList
        (some { sizeBytes := 120, text := List.replicate 100 'a' ++ List.replicate 20 '\n' })
        { year := 2024, month := 1, day := 2, hour := 3, minute := 4, second := 0 }
        (some "/a.txt|20240101-0000|1 Bytes|1 Char\n\nx\n/b.txt|20231231-2359|7 Bytes|5 Char".toList)
        true = some result ∧
      readLines result =
        ["/a.txt|20240101-0000|1 Bytes|1 Char".toList,
         "/b.txt|20231231-2359|7 Bytes|5 Char".toList,
         "/notes.txt|20240102-0304|120 Bytes|100 Char".toList] ∧
      result = joinLines (readLines result)) ∧
    writeMetadata "/notes.txt".toList
      (some { sizeBytes := 120, text := List.replicate 100 'a' ++ List.replicate 20 '\n' })
      { year := 2024, month := 1, day := 2, hour := 3, minute := 4, second := 0 }
      (some "/a.txt|20240101-0000|1 Bytes|1 Char\n\nx\n/b.txt|20231231-2359|7 Bytes|5 Char".toList)
      true
      = some ("/a.txt|20240101-0000|1 Bytes|1 Char\n/b.txt|20231231-2359|7 Bytes|5 Char\n"
          ++ "/notes.txt|20240102-0304|120 Bytes|100 Char\n").toList ∧
    (∃ result,
      writeMetadata "/notes.txt".toList
        (some { sizeBytes := 120, text := List.replicate 100 'a' ++ List.replicate 20 '\n' })
        { year := 2024, month := 1, day := 2, hour := 3, minute := 4, second := 0 }
        (some []) true = some result ∧
      readLines result = ["/notes.txt|20240102-0304|120 Bytes|100 Char".toList] ∧
      result = joinLines (readLines result)) ∧
    writeMetadata "/notes.txt".toList
      (some { sizeBytes := 120, text := List.replicate 100 'a' ++ List.replicate 20 '\n' })
      { year := 2024, month := 1, day := 2, hour := 3, minute := 4, second := 0 }
      (some []) true
      = some "/notes.txt|20240102-0304|120 Bytes|100 Char\n".toList :=
  ⟨by decide,
   no_line_of_form _ _ (by decide),
   (writeMetadata_appends_record "/notes.txt".toList
      { sizeBytes := 120, text := List.replicate 100 'a' ++ List.replicate 20 '\n' }
      { year := 2024, month := 1, day := 2, hour := 3, minute := 4, second := 0 }
      (some "/a.txt|20240101-0000|1 Bytes|1 Char\n\nx\n/b.txt|20231231-2359|7 Bytes|5 Char".toList)
      (by decide) (no_line_of_form _ _ (by decide))).imp
     (fun _ h => ⟨h.1, h.2.1.trans (by decide), h.2.2⟩),
   by decide,
   (writeMetadata_appends_record "/notes.txt".toList
      { sizeBytes := 120, text := List.replicate 100 'a' ++ List.replicate 20 '\n' }
      { year := 2024, month := 1, day := 2, hour := 3, minute := 4, second := 0 }
      (some []) (by decide) (no_line_of_form _ _ (by decide))).imp
     (fun _ h => ⟨h.1, h.2.1.trans (by decide), h.2.2⟩),
   by decide⟩

end PocketMage

namespace PocketMage

/-! ## Metadata index: `renMetadata`, the rewritten file read again -/

end PocketMage
